import Mathlib

/-!
# Verification of the AIDK requirement-traceability tools

This file is a shallow embedding, in Lean 4, of the core logic of the
`aidk` Python package (files `doc_syncer.py`, `code_builder.py`,
`spec_builder.py`) together with proofs and refutations of the behavioural
claims made about it.

Modelling conventions:

* Python strings are modelled as `List Char`.  A text document is modelled
  as a list of lines (`List (List Char)`), except where a regular
  expression genuinely operates across line boundaries
  (`DocSyncer.update_traceability_matrix`, claim C4), where the raw
  character stream is used.
* Each Python regular expression is translated into an explicit,
  executable matcher that follows the behaviour of Python's `re` engine
  on the concrete pattern (greedy/lazy repetition, ordered alternation,
  left-to-right non-overlapping `findall`).  The patterns used by the
  line-oriented parsers (`-\s+\*\*ID\*\*:`, `field:\s*(.+)`,
  `//\s*((?:SPEC|REQ)-...)`) contain `\s` classes that could in principle
  consume a newline; the documents manipulated by the tools never place a
  match across a line boundary, and the line-level model scans each line
  independently.  The corner cases where Python's `\s*` in
  `field:\s*(.+)` runs past the end of a line are modelled explicitly
  (see `extractFieldFrom`).
* Python `set` values are modelled by `Finset (List Char)`, Python dicts
  (with their insertion order) by association lists, and the float
  percentage arithmetic by exact rationals.
-/

/-- Characters of a string literal, the bridge between Lean string
literals and the `List Char` representation used throughout. -/
def chars (s : String) : List Char := s.data

/-- Python's `\s` character class: `[ \t\n\r\f\v]`. -/
def isWsChar (c : Char) : Bool :=
  c = ' ' || c = '\t' || c = '\n' || c = '\r' || c = '\x0b' || c = '\x0c'

/-- ASCII decimal digit. -/
def isDigitChar (c : Char) : Bool := '0' ≤ c && c ≤ '9'

/-- ASCII uppercase letter. -/
def isUpperChar (c : Char) : Bool := 'A' ≤ c && c ≤ 'Z'

/-- The character class `[A-Z0-9-]` used by `doc_syncer.py`. -/
def idCharA (c : Char) : Bool := isUpperChar c || isDigitChar c || c = '-'

/-- The character class `[A-Z-]` used by `code_builder.py`
(`_extract_requirements`); note that it does not contain digits. -/
def idCharB (c : Char) : Bool := isUpperChar c || c = '-'

/-- Substring test, Python's `needle in haystack`. -/
def containsSub (needle : List Char) : List Char → Bool
  | [] => needle.isPrefixOf []
  | c :: t => needle.isPrefixOf (c :: t) || containsSub needle t

/-- The suffix that follows the first occurrence of `needle`, when
`needle` occurs; used to model `re.search('needle(...)', text)`. -/
def afterNeedle (needle : List Char) : List Char → Option (List Char)
  | [] => if needle.isPrefixOf [] then some [] else none
  | c :: t =>
    if needle.isPrefixOf (c :: t) then some ((c :: t).drop needle.length)
    else afterNeedle needle t

/-- Remove trailing whitespace (one half of Python's `str.strip`). -/
def stripEnd (l : List Char) : List Char := (l.reverse.dropWhile isWsChar).reverse

/-- Python's `str.strip()`. -/
def stripWs (l : List Char) : List Char := stripEnd (l.dropWhile isWsChar)

/-- Consume one expected character. -/
def expectChar (c : Char) : List Char → Option (List Char)
  | d :: t => if d = c then some t else none
  | [] => none

/-- Consume an expected literal string. -/
def expectStr (p : List Char) (l : List Char) : Option (List Char) :=
  if p.isPrefixOf l then some (l.drop p.length) else none

/-- Consume `\s+`: at least one whitespace character, then greedily all
following whitespace. -/
def expectWs1 : List Char → Option (List Char)
  | d :: t => if isWsChar d then some ((d :: t).dropWhile isWsChar) else none
  | [] => none

/-- Consume `[p]+`: a non-empty maximal run of characters satisfying `p`,
returning the run and the rest. -/
def expectRun (p : Char → Bool) (l : List Char) : Option (List Char × List Char) :=
  let run := l.takeWhile p
  if run.isEmpty then none else some (run, l.dropWhile p)

/-! ## Shared document parsing

Both `doc_syncer.SpecParser.parse_metadata` and
`code_builder.SpecParser.parse` locate a frontmatter block with
`re.search(r'---\n(.*?)\n---', content, re.DOTALL)` and read fields out
of it with `re.search(rf'{field}:\s*(.+)', text)`. -/

/-- The frontmatter block: the pattern `---\n(.*?)\n---` (with DOTALL)
anchors on the first line that ends in `---` and captures every line up
to the next line that starts with `---`.  (Python would retry a later
anchor if no closing delimiter follows the first one; none of the
documents in this development has a dangling anchor.) -/
def extractFrontmatter (lines : List (List Char)) : Option (List (List Char)) :=
  match lines.findIdx? (fun l => (chars "---").isSuffixOf l) with
  | none => none
  | some i =>
    let rest := lines.drop (i + 1)
    match rest.findIdx? (fun l => (chars "---").isPrefixOf l) with
    | none => none
    | some j => some (rest.take j)

/-- First line with any content after leading whitespace, stripped of
trailing whitespace: the `\s*(.+)` tail of the field pattern, whose `\s*`
may run across line ends when the matched line has nothing after the
colon. -/
def firstContent : List (List Char) → Option (List Char)
  | [] => none
  | l :: rest =>
    let l' := l.dropWhile isWsChar
    if l'.isEmpty then firstContent rest else some (stripEnd l')

/-- The value of `re.search(rf'{field}:\s*(.+)', text)` over the line list
`text`, `.group(1).strip()`: find the first line containing the needle
(for example `"spec_id:"`), skip whitespace — continuing onto following
lines when the rest of the line is blank — and take the remainder of that
line, stripped.  (If the needle occurs but only whitespace follows
anywhere, Python would look for a later occurrence of the needle; that
double corner never arises here and is modelled as no match.) -/
def extractFieldFrom (needle : List Char) : List (List Char) → Option (List Char)
  | [] => none
  | l :: rest =>
    match afterNeedle needle l with
    | some aft => firstContent (aft :: rest)
    | none => extractFieldFrom needle rest

namespace DocSyncer

/-! ## Embedding of `doc_syncer.py` -/

/-- One attempt of the requirement pattern
`-\s+\*\*([A-Z0-9-]+)\*\*:` at the head of `l`
(`SpecParser.parse_requirements`); returns the captured ID and the rest
of the line after the match. -/
def tryMatchA (l : List Char) : Option (List Char × List Char) := do
  let r1 ← expectChar '-' l
  let r2 ← expectWs1 r1
  let r3 ← expectChar '*' r2
  let r4 ← expectChar '*' r3
  let (idr, r5) ← expectRun idCharA r4
  let r6 ← expectChar '*' r5
  let r7 ← expectChar '*' r6
  let r8 ← expectChar ':' r7
  some (idr, r8)

/-- All matches of the requirement pattern in one line, in order.
`re.findall` resumes scanning after the end of each match; for this
pattern a fresh match can never begin strictly inside a successful match
(a start needs `-` followed by whitespace, and inside a match the only
`-` characters are the leading one and those in the ID run, which are
followed by an ID character or `*`), so trying every suffix in order
yields exactly the `findall` list while staying structurally
recursive. -/
def scanLineA : List Char → List (List Char)
  | [] => []
  | c :: cs =>
    match tryMatchA (c :: cs) with
    | some (idr, _) => idr :: scanLineA cs
    | none => scanLineA cs

/-- `SpecParser.parse_requirements`: every `- **ID**:` match in the
document, filtered to IDs that start with `REQ-`. -/
def parse_requirements (specLines : List (List Char)) : List (List Char) :=
  (specLines.flatMap scanLineA).filter (fun id => (chars "REQ-").isPrefixOf id)

/-- `CodeReference` (dataclass). -/
structure CodeReference where
  file_path : List Char
  line_number : Nat
  requirement_id : List Char

/-- A source file handed to the scanner: its path relative to the code
directory and its lines.  The file's absolute path is the code directory
string, a `/`, and this relative path. -/
structure SrcFile where
  path : List Char
  lines : List (List Char)

/-- One attempt of the reference pattern
`//\s*((?:SPEC|REQ)-[A-Z0-9-]+)` at the head of `l`
(`CodeAnalyzer.find_spec_references`); the capture includes the
`SPEC-`/`REQ-` prefix. -/
def tryMatchC (l : List Char) : Option (List Char × List Char) := do
  let r1 ← expectChar '/' l
  let r2 ← expectChar '/' r1
  let r3 := r2.dropWhile isWsChar
  match expectStr (chars "SPEC-") r3 with
  | some r4 => do
    let (run, r5) ← expectRun idCharA r4
    some (chars "SPEC-" ++ run, r5)
  | none => do
    let r4 ← expectStr (chars "REQ-") r3
    let (run, r5) ← expectRun idCharA r4
    some (chars "REQ-" ++ run, r5)

/-- All reference matches in one line, in order.  As with `scanLineA`,
a fresh match can never begin strictly inside a successful match (a start
needs `//`, and inside a match `/` occurs only in the two leading
positions), so trying every suffix reproduces `re.findall`. -/
def scanLineC : List Char → List (List Char)
  | [] => []
  | c :: cs =>
    match tryMatchC (c :: cs) with
    | some (idr, _) => idr :: scanLineC cs
    | none => scanLineC cs

/-- Insert a reference into the ID-keyed mapping, preserving Python dict
insertion order and appending to the per-ID list. -/
def addRef : List (List Char × List CodeReference) → List Char → CodeReference →
    List (List Char × List CodeReference)
  | [], id, r => [(id, [r])]
  | (k, v) :: t, id, r =>
    if k = id then (k, v ++ [r]) :: t else (k, v) :: addRef t id r

/-- `CodeAnalyzer.find_spec_references`: scan every `*.kt` file, line by
line (line numbers starting at 1), and key every match by the extracted
ID.  The file order is the enumeration order of `rglob`, taken here as
the order of the input list. -/
def find_spec_references (files : List SrcFile) : List (List Char × List CodeReference) :=
  files.foldl
    (fun refs f =>
      if (chars ".kt").isSuffixOf f.path then
        (f.lines.enumFrom 1).foldl
          (fun refs nl =>
            (scanLineC nl.2).foldl
              (fun refs id =>
                addRef refs id ⟨f.path, nl.1, id⟩)
              refs)
          refs
      else refs)
    []

/-- `req_id in references` on the mapping. -/
def hasKey (refs : List (List Char × List CodeReference)) (id : List Char) : Bool :=
  refs.any (fun p => p.1 = id)

/-- `references.get(req_id, [])`. -/
def getRefs (refs : List (List Char × List CodeReference)) (id : List Char) :
    List CodeReference :=
  ((refs.find? (fun p => p.1 = id)).map (fun p => p.2)).getD []

/-- `CodeAnalyzer.find_test_files`: files under `code_dir/src/test` whose
name matches `*Test.kt`, as paths relative to the code directory.  (When
the test directory does not exist the Python code returns `[]`, which
coincides with filtering an empty set of matching paths.) -/
def find_test_files (files : List SrcFile) : List (List Char) :=
  (files.filter
    (fun f => (chars "src/test/").isPrefixOf f.path &&
              (chars "Test.kt").isSuffixOf f.path)).map (fun f => f.path)

/-- The production file list built inside `DocSyncer.verify`: all `*.kt`
files whose full path string (code directory, `/`, relative path) does
not contain `/test/`. -/
def codeFiles (codeDirStr : List Char) (files : List SrcFile) : List (List Char) :=
  (files.filter
    (fun f => (chars ".kt").isSuffixOf f.path &&
              !containsSub (chars "/test/") (codeDirStr ++ '/' :: f.path))).map
    (fun f => f.path)

/-- One metadata field of `SpecParser.parse_metadata`: the field pattern
applied to the frontmatter block, `none` when the frontmatter or the
field is absent (the Python dict simply lacks the key). -/
def parse_metadata_field (specLines : List (List Char)) (field : List Char) :
    Option (List Char) :=
  match extractFrontmatter specLines with
  | none => none
  | some fm => extractFieldFrom (field ++ [':']) fm

/-- `SyncReport` (dataclass); the two requirement collections are Python
sets. -/
structure SyncReport where
  spec_id : List Char
  feature : List Char
  total_requirements : Nat
  implemented_requirements : Finset (List Char)
  missing_requirements : Finset (List Char)
  code_files : List (List Char)
  test_files : List (List Char)
  mismatches : List (List Char)

/-- `DocSyncer.verify`: parse the SPEC, scan the code, and build the
report.  `implemented` collects the parsed requirement IDs that occur as
keys of the reference mapping; `missing` is the set difference. -/
def verify (specLines : List (List Char)) (codeDirStr : List Char)
    (files : List SrcFile) : SyncReport :=
  let requirements := parse_requirements specLines
  let references := find_spec_references files
  let implemented := (requirements.filter (fun r => hasKey references r)).toFinset
  let missing := requirements.toFinset \ implemented
  { spec_id := (parse_metadata_field specLines (chars "spec_id")).getD (chars "Unknown")
    feature := (parse_metadata_field specLines (chars "feature")).getD (chars "Unknown")
    total_requirements := requirements.length
    implemented_requirements := implemented
    missing_requirements := missing
    code_files := codeFiles codeDirStr files
    test_files := find_test_files files
    mismatches := [] }

/-- The implementation percentage computed (identically) in
`_print_verification_results` and `_generate_readme`:
`(len(impl) / total * 100) if total > 0 else 0`, with the float
arithmetic modelled exactly over `ℚ`. -/
def implPercentage (r : SyncReport) : ℚ :=
  if 0 < r.total_requirements then
    (r.implemented_requirements.card : ℚ) / (r.total_requirements : ℚ) * 100
  else 0

end DocSyncer

/-! ## Helper lemmas about the report computed by `verify` -/

theorem containsSub_of_isPrefixOf {n l : List Char} (h : n <+: l) : containsSub n l = true := by
  cases l with
  | nil => simpa [containsSub] using List.isPrefixOf_iff_prefix.mpr h
  | cons c t =>
    simp only [containsSub, Bool.or_eq_true]
    exact Or.inl (List.isPrefixOf_iff_prefix.mpr h)

theorem containsSub_append_left {n t : List Char} (a : List Char)
    (h : containsSub n t = true) : containsSub n (a ++ t) = true := by
  induction a with
  | nil => simpa using h
  | cons c a' ih =>
    simp only [List.cons_append, containsSub, Bool.or_eq_true]
    exact Or.inr ih

namespace DocSyncer

theorem verify_implemented_eq (spec : List (List Char)) (codeDir : List Char)
    (files : List SrcFile) :
    (verify spec codeDir files).implemented_requirements =
      ((parse_requirements spec).filter
        (fun r => hasKey (find_spec_references files) r)).toFinset := rfl

theorem verify_missing_eq (spec : List (List Char)) (codeDir : List Char)
    (files : List SrcFile) :
    (verify spec codeDir files).missing_requirements =
      (parse_requirements spec).toFinset \
        (verify spec codeDir files).implemented_requirements := rfl

theorem verify_total_eq (spec : List (List Char)) (codeDir : List Char)
    (files : List SrcFile) :
    (verify spec codeDir files).total_requirements =
      (parse_requirements spec).length := rfl

theorem verify_test_files_eq (spec : List (List Char)) (codeDir : List Char)
    (files : List SrcFile) :
    (verify spec codeDir files).test_files = find_test_files files := rfl

theorem verify_code_files_eq (spec : List (List Char)) (codeDir : List Char)
    (files : List SrcFile) :
    (verify spec codeDir files).code_files = codeFiles codeDir files := rfl

theorem implemented_subset (spec : List (List Char)) (codeDir : List Char)
    (files : List SrcFile) :
    (verify spec codeDir files).implemented_requirements ⊆
      (parse_requirements spec).toFinset := by
  rw [verify_implemented_eq]
  intro x hx
  simp only [List.mem_toFinset, List.mem_filter] at hx ⊢
  exact hx.1

/-! ## Claims about `doc_syncer.py` -/

/-- C1: for every `SyncReport` produced by `DocSyncer.verify`, the
implemented and missing sets partition the requirement-ID universe parsed
from the document: they are disjoint and their union is the set of
distinct `REQ-`-prefixed IDs extracted by `parse_requirements`. -/
theorem C1_report_partition (spec : List (List Char)) (codeDir : List Char)
    (files : List SrcFile) :
    (verify spec codeDir files).implemented_requirements ∩
        (verify spec codeDir files).missing_requirements = ∅ ∧
    (verify spec codeDir files).implemented_requirements ∪
        (verify spec codeDir files).missing_requirements =
      (parse_requirements spec).toFinset := by
  rw [verify_missing_eq]
  exact ⟨Finset.inter_sdiff_self _ _,
    Finset.union_sdiff_of_subset (implemented_subset spec codeDir files)⟩

/-- C7: a spec with at least one parsed requirement ID, verified against
an empty source tree, reports implemented = ∅, missing = the full ID set,
and an implementation percentage of 0. -/
theorem C7_empty_tree (spec : List (List Char)) (codeDir : List Char)
    (h : parse_requirements spec ≠ []) :
    (verify spec codeDir []).implemented_requirements = ∅ ∧
    (verify spec codeDir []).missing_requirements =
      (parse_requirements spec).toFinset ∧
    implPercentage (verify spec codeDir []) = 0 := by
  have himpl : (verify spec codeDir []).implemented_requirements = ∅ := by
    rw [verify_implemented_eq]
    have hrefs : find_spec_references [] = [] := rfl
    simp [hrefs, hasKey]
  refine ⟨himpl, ?_, ?_⟩
  · rw [verify_missing_eq, himpl, Finset.sdiff_empty]
  · rw [implPercentage, if_pos, himpl]
    · simp
    · rw [verify_total_eq]
      exact List.length_pos.mpr h

/-- Witness for C7: a one-requirement spec against an empty tree reports
percentage 0. -/
theorem C7_empty_tree_witness :
    parse_requirements [chars "- **REQ-001-U-01**: x"] ≠ [] ∧
    implPercentage (verify [chars "- **REQ-001-U-01**: x"] (chars "proj") []) = 0 :=
  ⟨by decide,
   (C7_empty_tree [chars "- **REQ-001-U-01**: x"] (chars "proj") (by decide)).2.2⟩

/-- C8: the implementation percentage equals
`card implemented / total * 100` whenever `total > 0`, and is `0` when
`total = 0`; the zero-divisor branch is never taken. -/
theorem C8_percentage_formula (r : SyncReport) :
    (0 < r.total_requirements →
      implPercentage r =
        (r.implemented_requirements.card : ℚ) / (r.total_requirements : ℚ) * 100) ∧
    (r.total_requirements = 0 → implPercentage r = 0) := by
  constructor
  · intro h
    rw [implPercentage, if_pos h]
  · intro h
    rw [implPercentage, if_neg (by omega)]

/-- Witness for C8 at a concrete report with 1 of 2 requirements
implemented. -/
theorem C8_percentage_formula_witness :
    0 < (2 : Nat) ∧
    implPercentage ⟨chars "S", chars "F", 2, {chars "REQ-A"}, ∅, [], [], []⟩ =
      (({chars "REQ-A"} : Finset (List Char)).card : ℚ) / ((2 : Nat) : ℚ) * 100 :=
  ⟨by decide,
   (C8_percentage_formula ⟨chars "S", chars "F", 2, {chars "REQ-A"}, ∅, [], [], []⟩).1
     (by decide)⟩

/-- C9: in every report produced by `verify`, the test-file list and the
production code-file list are disjoint: a path reported as a test file
never also appears as a production source file. -/
theorem C9_test_files_disjoint (spec : List (List Char)) (codeDir : List Char)
    (files : List SrcFile) (p : List Char)
    (hp : p ∈ (verify spec codeDir files).test_files) :
    p ∉ (verify spec codeDir files).code_files := by
  rw [verify_test_files_eq] at hp
  rw [verify_code_files_eq]
  intro hc
  simp only [find_test_files, List.mem_map, List.mem_filter] at hp
  obtain ⟨f, ⟨hmemf, hcond⟩, hfp⟩ := hp
  simp only [codeFiles, List.mem_map, List.mem_filter] at hc
  obtain ⟨g, ⟨hmemg, hcondg⟩, hgp⟩ := hc
  rw [Bool.and_eq_true] at hcond hcondg
  obtain ⟨rest, hrest⟩ := List.isPrefixOf_iff_prefix.mp hcond.1
  have hfull : containsSub (chars "/test/") (codeDir ++ '/' :: g.path) = true := by
    have hgf : g.path = f.path := by rw [hgp, hfp]
    rw [hgf, ← hrest]
    have hsplit : ('/' :: (chars "src/test/" ++ rest)) =
        chars "/src" ++ (chars "/test/" ++ rest) := rfl
    rw [hsplit]
    exact containsSub_append_left _
      (containsSub_append_left _ (containsSub_of_isPrefixOf ⟨rest, rfl⟩))
  have hfalse : containsSub (chars "/test/") (codeDir ++ '/' :: g.path) = false := by
    simpa using hcondg.2
  rw [hfalse] at hfull
  exact Bool.false_ne_true hfull

/-- Witness for C9: a concrete test file under `src/test` is reported as
a test file and not as a production file. -/
theorem C9_test_files_disjoint_witness :
    chars "src/test/FooTest.kt" ∈
      (verify [] (chars "proj") [⟨chars "src/test/FooTest.kt", []⟩]).test_files ∧
    chars "src/test/FooTest.kt" ∉
      (verify [] (chars "proj") [⟨chars "src/test/FooTest.kt", []⟩]).code_files :=
  ⟨by decide,
   C9_test_files_disjoint [] (chars "proj") [⟨chars "src/test/FooTest.kt", []⟩]
     (chars "src/test/FooTest.kt") (by decide)⟩

/-- C10: when the parsed requirement list contains a duplicate ID, the
total counts every occurrence while implemented and missing are sets of
distinct IDs, so `card implemented + card missing < total` and the
reported percentage is strictly below 100. -/
theorem C10_duplicate_ids (spec : List (List Char)) (codeDir : List Char)
    (files : List SrcFile) (h : ¬ (parse_requirements spec).Nodup) :
    (verify spec codeDir files).implemented_requirements.card +
        (verify spec codeDir files).missing_requirements.card <
      (verify spec codeDir files).total_requirements ∧
    implPercentage (verify spec codeDir files) < 100 := by
  have hsub := implemented_subset spec codeDir files
  have hdedup : (parse_requirements spec).toFinset.card <
      (parse_requirements spec).length := by
    rw [List.card_toFinset]
    have hs := List.dedup_sublist (parse_requirements spec)
    refine lt_of_le_of_ne hs.length_le (fun e => ?_)
    exact h (List.dedup_eq_self.mp (hs.eq_of_length e))
  have hcard : (verify spec codeDir files).implemented_requirements.card +
      (verify spec codeDir files).missing_requirements.card =
      (parse_requirements spec).toFinset.card := by
    rw [verify_missing_eq, Finset.card_sdiff hsub]
    have hle := Finset.card_le_card hsub
    omega
  have himplle : (verify spec codeDir files).implemented_requirements.card <
      (parse_requirements spec).length :=
    lt_of_le_of_lt (Finset.card_le_card hsub) hdedup
  constructor
  · rw [verify_total_eq]
    omega
  · have htot : 0 < (parse_requirements spec).length := by
      rcases hnil : parse_requirements spec with _ | ⟨a, l⟩
      · rw [hnil] at h
        exact absurd List.nodup_nil h
      · simp
    rw [implPercentage, verify_total_eq, if_pos htot]
    rw [div_mul_eq_mul_div, div_lt_iff₀ (by exact_mod_cast htot)]
    have hq : ((verify spec codeDir files).implemented_requirements.card : ℚ) <
        ((parse_requirements spec).length : ℚ) := by exact_mod_cast himplle
    nlinarith

/-- Witness for C10: a spec whose two bolded-ID lines carry the same
requirement ID. -/
theorem C10_duplicate_ids_witness :
    ¬ (parse_requirements [chars "- **REQ-X**: a", chars "- **REQ-X**: b"]).Nodup ∧
    implPercentage (verify [chars "- **REQ-X**: a", chars "- **REQ-X**: b"]
      (chars "proj") []) < 100 :=
  have hnd : ¬ (parse_requirements
      [chars "- **REQ-X**: a", chars "- **REQ-X**: b"]).Nodup := fun hn =>
    (by decide :
        (parse_requirements [chars "- **REQ-X**: a", chars "- **REQ-X**: b"]).dedup ≠
          parse_requirements [chars "- **REQ-X**: a", chars "- **REQ-X**: b"])
      (List.dedup_eq_self.mpr hn)
  ⟨hnd,
   (C10_duplicate_ids [chars "- **REQ-X**: a", chars "- **REQ-X**: b"]
     (chars "proj") [] hnd).2⟩

end DocSyncer

namespace SpecBuilder

/-! ## Embedding of `spec_builder.py`: the skill matcher -/

/-- One entry of the static `AndroidSkillMatcher.SKILLS` catalog. -/
structure SkillEntry where
  name : List Char
  keywords : List (List Char)
  category : List Char
  description : List Char

/-- The `SKILLS` catalog, in its Python insertion (iteration) order. -/
def SKILLS : List SkillEntry := [
  ⟨chars "android-clean-architecture",
   [chars "clean architecture", chars "layer", chars "separation", chars "domain",
    chars "presentation", chars "data"],
   chars "Architecture", chars "Three-layer architecture pattern"⟩,
  ⟨chars "android-mvvm-architecture",
   [chars "mvvm", chars "viewmodel", chars "state", chars "architecture"],
   chars "Architecture", chars "MVVM architecture with ViewModel"⟩,
  ⟨chars "android-compose-ui",
   [chars "ui", chars "screen", chars "compose", chars "jetpack compose",
    chars "composable", chars "interface"],
   chars "UI", chars "Declarative UI with Jetpack Compose"⟩,
  ⟨chars "android-compose-navigation",
   [chars "navigation", chars "screen", chars "route", chars "navigate", chars "deep link"],
   chars "UI", chars "Navigation between screens"⟩,
  ⟨chars "android-compose-theming",
   [chars "theme", chars "color", chars "typography", chars "material design",
    chars "dark mode"],
   chars "UI", chars "Material 3 theming"⟩,
  ⟨chars "android-material-components",
   [chars "button", chars "card", chars "dialog", chars "material", chars "component"],
   chars "UI", chars "Material Design components"⟩,
  ⟨chars "android-list-ui",
   [chars "list", chars "recyclerview", chars "lazycolumn", chars "scroll"],
   chars "UI", chars "Scrollable lists"⟩,
  ⟨chars "android-forms-validation",
   [chars "form", chars "input", chars "validation", chars "field", chars "validate"],
   chars "UI", chars "Form input and validation"⟩,
  ⟨chars "android-xml-views",
   [chars "xml", chars "view", chars "legacy", chars "viewbinding"],
   chars "UI", chars "XML-based views"⟩,
  ⟨chars "android-hilt-di",
   [chars "dependency injection", chars "di", chars "hilt", chars "inject", chars "module"],
   chars "DI", chars "Dependency injection with Hilt"⟩,
  ⟨chars "android-koin-di",
   [chars "koin", chars "dependency injection", chars "di"],
   chars "DI", chars "Dependency injection with Koin"⟩,
  ⟨chars "android-repository-pattern",
   [chars "repository", chars "data source", chars "data layer"],
   chars "Data", chars "Repository pattern"⟩,
  ⟨chars "android-database-room",
   [chars "database", chars "room", chars "sql", chars "local storage", chars "cache"],
   chars "Data", chars "Local database with Room"⟩,
  ⟨chars "android-networking-retrofit",
   [chars "api", chars "network", chars "retrofit", chars "http", chars "rest",
    chars "endpoint"],
   chars "Data", chars "REST API with Retrofit"⟩,
  ⟨chars "android-datastore",
   [chars "preferences", chars "datastore", chars "settings", chars "key-value"],
   chars "Data", chars "DataStore for preferences"⟩,
  ⟨chars "android-stateflow",
   [chars "state", chars "stateflow", chars "flow", chars "reactive", chars "observable"],
   chars "State", chars "State management with StateFlow"⟩,
  ⟨chars "android-one-time-events",
   [chars "event", chars "navigation event", chars "one-time", chars "channel"],
   chars "State", chars "One-time UI events"⟩,
  ⟨chars "android-coroutines",
   [chars "async", chars "coroutine", chars "suspend", chars "background", chars "thread"],
   chars "Async", chars "Asynchronous operations with Coroutines"⟩,
  ⟨chars "android-workmanager",
   [chars "background work", chars "workmanager", chars "periodic", chars "sync"],
   chars "Background", chars "Background tasks with WorkManager"⟩,
  ⟨chars "android-paging3",
   [chars "pagination", chars "paging", chars "infinite scroll", chars "load more"],
   chars "Data", chars "Pagination with Paging 3"⟩,
  ⟨chars "android-compose-testing",
   [chars "test", chars "ui test", chars "compose test", chars "testing"],
   chars "Testing", chars "UI testing for Compose"⟩,
  ⟨chars "android-unit-testing",
   [chars "unit test", chars "testing", chars "test", chars "mock"],
   chars "Testing", chars "Unit testing"⟩,
  ⟨chars "android-gradle-config",
   [chars "gradle", chars "build", chars "configuration", chars "dependency"],
   chars "Build", chars "Gradle build configuration"⟩,
  ⟨chars "android-project-setup",
   [chars "setup", chars "project", chars "initialize", chars "new project"],
   chars "Setup", chars "Project setup and structure"⟩,
  ⟨chars "android-permissions",
   [chars "permission", chars "runtime permission", chars "access"],
   chars "Features", chars "Runtime permissions"⟩,
  ⟨chars "android-image-loading",
   [chars "image", chars "coil", chars "glide", chars "picture", chars "photo"],
   chars "Features", chars "Image loading with Coil/Glide"⟩,
  ⟨chars "android-json-moshi",
   [chars "json", chars "moshi", chars "parsing", chars "serialization", chars "api",
    chars "adapter"],
   chars "JSON", chars "JSON parsing with Moshi"⟩,
  ⟨chars "android-json-kotlinx",
   [chars "json", chars "kotlin serialization", chars "serializable", chars "kotlinx",
    chars "serialization"],
   chars "JSON", chars "Kotlin Serialization"⟩,
  ⟨chars "android-testing-mockk",
   [chars "mock", chars "test", chars "mockk", chars "testing", chars "verify",
    chars "stub"],
   chars "Testing", chars "Mocking with MockK"⟩,
  ⟨chars "android-testing-turbine",
   [chars "flow", chars "test", chars "turbine", chars "stateflow", chars "testing",
    chars "await"],
   chars "Testing", chars "Flow testing with Turbine"⟩,
  ⟨chars "android-logging-timber",
   [chars "log", chars "timber", chars "logging", chars "debug", chars "error"],
   chars "Utilities", chars "Logging with Timber"⟩,
  ⟨chars "android-animation-lottie",
   [chars "animation", chars "lottie", chars "animate", chars "motion",
    chars "after effects"],
   chars "Animation", chars "Lottie animations"⟩,
  ⟨chars "android-git-atomic-commits",
   [chars "git", chars "commit", chars "atomic", chars "conventional",
    chars "traceability", chars "small commits"],
   chars "Git", chars "Atomic commits with conventional format"⟩,
  ⟨chars "android-git-spec-workflow",
   [chars "git", chars "spec", chars "workflow", chars "branch", chars "feature branch",
    chars "pull request"],
   chars "Git", chars "SPEC-First git workflow"⟩,
  ⟨chars "android-git-conventional-commits",
   [chars "git", chars "conventional", chars "commit message", chars "changelog",
    chars "semantic versioning"],
   chars "Git", chars "Conventional commit format"⟩,
  ⟨chars "android-git-multi-commit-feature",
   [chars "git", chars "split", chars "multi commit", chars "refactor",
    chars "large feature", chars "code review"],
   chars "Git", chars "Split features into commits"⟩]

/-- Python `str.lower()` on the texts involved (ASCII). -/
def lowerChars (l : List Char) : List Char := l.map Char.toLower

/-- Python `' '.join(requirements)`. -/
def joinSpace : List (List Char) → List Char
  | [] => []
  | [x] => x
  | x :: xs => x ++ ' ' :: joinSpace xs

/-- The keyword score of one catalog entry: the number of its keywords
occurring as substrings of the combined text. -/
def scoreEntry (text : List Char) (kws : List (List Char)) : Nat :=
  kws.foldl (fun s k => if containsSub k text then s + 1 else s) 0

/-- Stable descending insertion by score: the new element goes after
every element whose score is at least its own, which is where Python's
stable `sort(key=score, reverse=True)` keeps a late-coming tie. -/
def insertDesc : List (List Char × Nat) → (List Char × Nat) → List (List Char × Nat)
  | [], x => [x]
  | y :: ys, x => if x.2 ≤ y.2 then y :: insertDesc ys x else x :: y :: ys

/-- Stable descending sort by score (`matched_skills.sort(key=lambda x:
x[1], reverse=True)`): a left fold of stable insertions. -/
def sortDesc (l : List (List Char × Nat)) : List (List Char × Nat) :=
  l.foldl insertDesc []

/-- The fixed list of core skills force-included by `match_skills`. -/
def core_skills : List (List Char) :=
  [chars "android-clean-architecture", chars "android-mvvm-architecture",
   chars "android-compose-ui"]

/-- `AndroidSkillMatcher.match_skills`: score every catalog entry over
the lower-cased combination of the feature description and the joined
requirements, keep the positive scores in catalog order, sort stably by
descending score, deduplicate into `result`, force-append the core
skills, and return the first 10. -/
def match_skills (feature : List Char) (reqs : List (List Char)) : List (List Char) :=
  let text := lowerChars (feature ++ ' ' :: joinSpace reqs)
  let matched := SKILLS.foldl
    (fun acc e =>
      let score := scoreEntry text e.keywords
      if 0 < score then acc ++ [(e.name, score)] else acc) []
  let sorted := sortDesc matched
  let result := sorted.foldl (fun r p => if p.1 ∈ r then r else r ++ [p.1]) []
  let result := core_skills.foldl (fun r c => if c ∈ r then r else r ++ [c]) result
  result.take 10

/-- Buckets of equal score in descending score order, ties in list
order: the non-algorithmic rendering of "sorted by descending score,
ties preserve catalog iteration order" used to state claim C5. -/
def bucketsUpTo : Nat → List (List Char × Nat) → List (List Char × Nat)
  | 0, l => l.filter (fun p => p.2 = 0)
  | s + 1, l => l.filter (fun p => p.2 = s + 1) ++ bucketsUpTo s l

/-- Claim C5's description of the matcher, written independently of the
loop structure: drop zero scores, rank by descending score with ties in
catalog order (every score is at most 6, the largest keyword list),
append the missing core tags, truncate to 10. -/
def match_skills_spec (feature : List Char) (reqs : List (List Char)) :
    List (List Char) :=
  let text := lowerChars (feature ++ ' ' :: joinSpace reqs)
  let scored := (SKILLS.map (fun e => (e.name, scoreEntry text e.keywords))).filter
    (fun p => 0 < p.2)
  let ranked := (bucketsUpTo 6 scored).map (fun p => p.1)
  (ranked ++ core_skills.filter (fun c => c ∉ ranked)).take 10

/-! ## Lemmas for claim C5 -/

theorem matched_foldl_eq (text : List Char) (L : List SkillEntry) :
    ∀ acc : List (List Char × Nat),
      L.foldl (fun acc e =>
        if 0 < scoreEntry text e.keywords then
          acc ++ [(e.name, scoreEntry text e.keywords)]
        else acc) acc
      = acc ++ (L.map (fun e => (e.name, scoreEntry text e.keywords))).filter
          (fun p => 0 < p.2) := by
  induction L with
  | nil => intro acc; simp
  | cons e L ih =>
    intro acc
    simp only [List.foldl_cons, List.map_cons, List.filter_cons]
    by_cases h : 0 < scoreEntry text e.keywords
    · rw [if_pos h, ih]
      simp [h]
    · rw [if_neg h, ih]
      simp [h]

theorem scoreEntry_le (text : List Char) (kws : List (List Char)) :
    scoreEntry text kws ≤ kws.length := by
  have haux : ∀ (l : List (List Char)) (a : Nat),
      l.foldl (fun s k => if containsSub k text then s + 1 else s) a ≤ a + l.length := by
    intro l
    induction l with
    | nil => intro a; simp
    | cons k l ih =>
      intro a
      simp only [List.foldl_cons, List.length_cons]
      by_cases h : containsSub k text = true
      · rw [if_pos h]
        have := ih (a + 1)
        omega
      · rw [if_neg h]
        have := ih a
        omega
  simpa [scoreEntry] using haux kws 0

theorem insertDesc_append_of_le {x : List Char × Nat} {A : List (List Char × Nat)}
    (B : List (List Char × Nat)) (hA : ∀ y ∈ A, x.2 ≤ y.2) :
    insertDesc (A ++ B) x = A ++ insertDesc B x := by
  induction A with
  | nil => simp
  | cons y A ih =>
    simp only [List.cons_append, insertDesc]
    rw [if_pos (hA y (by simp))]
    exact congrArg _ (ih (fun z hz => hA z (by simp [hz])))

theorem insertDesc_of_lt {x : List Char × Nat} {B : List (List Char × Nat)}
    (hB : ∀ y ∈ B, y.2 < x.2) : insertDesc B x = x :: B := by
  cases B with
  | nil => rfl
  | cons y B =>
    simp only [insertDesc]
    rw [if_neg]
    have := hB y (by simp)
    omega

theorem bucketsUpTo_nil (M : Nat) : bucketsUpTo M [] = [] := by
  induction M with
  | zero => rfl
  | succ s ih => simp [bucketsUpTo, ih]

theorem mem_bucketsUpTo {M : Nat} {l : List (List Char × Nat)} {p : List Char × Nat}
    (h : p ∈ bucketsUpTo M l) : p.2 ≤ M := by
  induction M with
  | zero =>
    simp only [bucketsUpTo, List.mem_filter, decide_eq_true_eq] at h
    omega
  | succ s ih =>
    simp only [bucketsUpTo, List.mem_append, List.mem_filter, decide_eq_true_eq] at h
    rcases h with h | h
    · omega
    · exact Nat.le_succ_of_le (ih h)

theorem bucketsUpTo_append_of_gt {s : Nat} {x : List Char × Nat}
    (l : List (List Char × Nat)) (hx : s < x.2) :
    bucketsUpTo s (l ++ [x]) = bucketsUpTo s l := by
  induction s with
  | zero =>
    simp only [bucketsUpTo, List.filter_append, List.filter_cons, List.filter_nil]
    have : ¬ x.2 = 0 := by omega
    simp [this]
  | succ t ih =>
    have hx2 : t < x.2 := by omega
    simp only [bucketsUpTo, List.filter_append, List.filter_cons, List.filter_nil,
      ih hx2]
    have : ¬ x.2 = t + 1 := by omega
    simp [this]

theorem insertDesc_bucketsUpTo (M : Nat) (l : List (List Char × Nat))
    (x : List Char × Nat) (hx : x.2 ≤ M) :
    insertDesc (bucketsUpTo M l) x = bucketsUpTo M (l ++ [x]) := by
  induction M generalizing l with
  | zero =>
    have hx0 : x.2 = 0 := by omega
    have h1 : ∀ y ∈ bucketsUpTo 0 l, x.2 ≤ y.2 := fun y _ => by omega
    have h2 : insertDesc (bucketsUpTo 0 l ++ []) x = bucketsUpTo 0 l ++ insertDesc [] x :=
      insertDesc_append_of_le [] h1
    simp only [List.append_nil] at h2
    rw [h2]
    simp [bucketsUpTo, List.filter_append, hx0, insertDesc]
  | succ s ih =>
    by_cases hcase : x.2 = s + 1
    · have hall : ∀ y ∈ (l.filter (fun p => p.2 = s + 1) : List (List Char × Nat)),
          x.2 ≤ y.2 := by
        intro y hy
        simp only [List.mem_filter, decide_eq_true_eq] at hy
        omega
      rw [bucketsUpTo, insertDesc_append_of_le _ hall,
        insertDesc_of_lt (fun y hy => by
          have := mem_bucketsUpTo hy
          omega)]
      rw [show bucketsUpTo (s + 1) (l ++ [x]) =
        (l ++ [x]).filter (fun p => p.2 = s + 1) ++ bucketsUpTo s (l ++ [x]) from rfl]
      rw [bucketsUpTo_append_of_gt l (by omega)]
      simp [List.filter_append, hcase]
    · have hx2 : x.2 ≤ s := by omega
      have hall : ∀ y ∈ (l.filter (fun p => p.2 = s + 1) : List (List Char × Nat)),
          x.2 ≤ y.2 := by
        intro y hy
        simp only [List.mem_filter, decide_eq_true_eq] at hy
        omega
      rw [bucketsUpTo, insertDesc_append_of_le _ hall, ih l hx2]
      rw [show bucketsUpTo (s + 1) (l ++ [x]) =
        (l ++ [x]).filter (fun p => p.2 = s + 1) ++ bucketsUpTo s (l ++ [x]) from rfl]
      simp [List.filter_append, hcase]

theorem sortDesc_eq_bucketsUpTo (M : Nat) (l : List (List Char × Nat))
    (hb : ∀ p ∈ l, p.2 ≤ M) : sortDesc l = bucketsUpTo M l := by
  induction l using List.reverseRecOn with
  | nil => rw [sortDesc, List.foldl_nil, bucketsUpTo_nil]
  | append_singleton l x ih =>
    rw [sortDesc, List.foldl_append, List.foldl_cons, List.foldl_nil,
      ← sortDesc, ih (fun p hp => hb p (by simp [hp])),
      insertDesc_bucketsUpTo M l x (hb x (by simp))]

theorem insertDesc_perm (l : List (List Char × Nat)) (x : List Char × Nat) :
    (insertDesc l x).Perm (x :: l) := by
  induction l with
  | nil => exact List.Perm.refl _
  | cons y ys ih =>
    simp only [insertDesc]
    split
    · exact ((ih.cons y).trans (List.Perm.swap x y ys))
    · exact List.Perm.refl _

theorem sortDesc_perm (l : List (List Char × Nat)) : (sortDesc l).Perm l := by
  have haux : ∀ (L acc : List (List Char × Nat)),
      (L.foldl insertDesc acc).Perm (acc ++ L) := by
    intro L
    induction L with
    | nil => intro acc; simp
    | cons x xs ih =>
      intro acc
      simp only [List.foldl_cons]
      refine (ih (insertDesc acc x)).trans ?_
      refine (List.Perm.append_right xs (insertDesc_perm acc x)).trans ?_
      exact List.perm_middle.symm
  simpa [sortDesc] using haux l []

theorem dedupFold_eq (l : List (List Char)) :
    ∀ acc : List (List Char), l.Nodup →
      l.foldl (fun r x => if x ∈ r then r else r ++ [x]) acc
        = acc ++ l.filter (fun x => x ∉ acc) := by
  induction l with
  | nil => intro acc _; simp
  | cons x xs ih =>
    intro acc hnd
    have hxs : xs.Nodup := hnd.of_cons
    have hx : x ∉ xs := (List.nodup_cons.mp hnd).1
    simp only [List.foldl_cons, List.filter_cons]
    by_cases hmem : x ∈ acc
    · rw [if_pos hmem, ih acc hxs]
      simp [hmem]
    · rw [if_neg hmem, ih (acc ++ [x]) hxs]
      have hfc : xs.filter (fun y => y ∉ acc ++ [x]) = xs.filter (fun y => y ∉ acc) := by
        refine List.filter_congr (fun y hy => ?_)
        have hne : y ≠ x := fun he => hx (he ▸ hy)
        simp [List.mem_append, hne]
      rw [hfc]
      simp [hmem]


/-! ## Claims about the skill matcher -/

/-- C5: `match_skills` excludes every zero-scoring catalog entry, orders
the remaining entries by descending score with ties kept in catalog
iteration order, appends each core tag not already present, and
truncates to the first 10 distinct tags — the behaviour captured
independently of the loop structure by `match_skills_spec`. -/
theorem C5_match_skills_characterization (feature : List Char)
    (reqs : List (List Char)) :
    match_skills feature reqs = match_skills_spec feature reqs := by
  simp only [match_skills, match_skills_spec]
  rw [matched_foldl_eq, List.nil_append]
  have hkw : ∀ e ∈ SKILLS, e.keywords.length ≤ 6 := by decide
  have hbound : ∀ p ∈ (SKILLS.map
      (fun e => (e.name, scoreEntry (lowerChars (feature ++ ' ' :: joinSpace reqs))
        e.keywords))).filter (fun p => 0 < p.2), p.2 ≤ 6 := by
    intro p hp
    simp only [List.mem_filter, List.mem_map] at hp
    obtain ⟨⟨e, he, hpe⟩, _⟩ := hp
    have h1 := scoreEntry_le (lowerChars (feature ++ ' ' :: joinSpace reqs)) e.keywords
    have h2 := hkw e he
    rw [← hpe]
    exact le_trans h1 h2
  rw [sortDesc_eq_bucketsUpTo 6 _ hbound]
  have hperm : (bucketsUpTo 6 ((SKILLS.map
      (fun e => (e.name, scoreEntry (lowerChars (feature ++ ' ' :: joinSpace reqs))
        e.keywords))).filter (fun p => 0 < p.2))).Perm
      ((SKILLS.map
      (fun e => (e.name, scoreEntry (lowerChars (feature ++ ' ' :: joinSpace reqs))
        e.keywords))).filter (fun p => 0 < p.2)) := by
    rw [← sortDesc_eq_bucketsUpTo 6 _ hbound]
    exact sortDesc_perm _
  have hnames : (((SKILLS.map
      (fun e => (e.name, scoreEntry (lowerChars (feature ++ ' ' :: joinSpace reqs))
        e.keywords))).filter (fun p => 0 < p.2)).map (fun p => p.1)).Nodup := by
    have hsubl := (List.filter_sublist (p := fun p : List Char × Nat => 0 < p.2)
      (SKILLS.map (fun e => (e.name, scoreEntry
        (lowerChars (feature ++ ' ' :: joinSpace reqs)) e.keywords)))).map
      (fun p : List Char × Nat => p.1)
    have hcat : ((SKILLS.map (fun e => (e.name, scoreEntry
        (lowerChars (feature ++ ' ' :: joinSpace reqs)) e.keywords))).map
        (fun p : List Char × Nat => p.1)) = SKILLS.map (fun e => e.name) := by
      rw [List.map_map]
      rfl
    have hnod : (SKILLS.map (fun e => e.name)).Nodup := by decide
    rw [hcat] at hsubl
    exact hnod.sublist hsubl
  have hnodup : ((bucketsUpTo 6 ((SKILLS.map
      (fun e => (e.name, scoreEntry (lowerChars (feature ++ ' ' :: joinSpace reqs))
        e.keywords))).filter (fun p => 0 < p.2))).map (fun p => p.1)).Nodup :=
    ((hperm.map _).nodup_iff).mpr hnames
  rw [← List.foldl_map (fun p : List Char × Nat => p.1)
    (fun r x => if x ∈ r then r else r ++ [x])]
  rw [dedupFold_eq _ [] hnodup, List.nil_append]
  rw [List.filter_eq_self.mpr (by intro a _; simp)]
  rw [dedupFold_eq core_skills _ (by decide)]

/-- C6: the matcher is deterministic — two calls with equal feature
descriptions and equal requirement lists (against the fixed catalog)
return the identical ordered list. -/
theorem C6_match_deterministic (f1 f2 : List Char) (r1 r2 : List (List Char))
    (hf : f1 = f2) (hr : r1 = r2) :
    match_skills f1 r1 = match_skills f2 r2 := by
  rw [hf, hr]

/-- Witness for C6 at a concrete argument pair. -/
theorem C6_match_deterministic_witness :
    chars "user login form" = chars "user login form" ∧
    match_skills (chars "user login form") [chars "validation"] =
      match_skills (chars "user login form") [chars "validation"] :=
  ⟨rfl, C6_match_deterministic (chars "user login form") (chars "user login form")
    [chars "validation"] [chars "validation"] rfl rfl⟩

end SpecBuilder

namespace CodeBuilder

/-! ## Embedding of `code_builder.py`: `SpecParser` -/

/-- `Requirement` (dataclass): ID, EARS kind letter, description. -/
structure Requirement where
  id : List Char
  type : Char
  description : List Char

/-- `SpecDocument` (dataclass). -/
structure SpecDocument where
  spec_id : List Char
  feature : List Char
  status : List Char
  version : List Char
  author : List Char
  date : List Char
  related_skills : List (List Char)
  requirements : List Requirement
  purpose : List Char

/-- The one exception `SpecParser.parse` can raise:
`ValueError("No frontmatter found in SPEC file")`. -/
inductive ParseError where
  | noFrontmatter

/-- One attempt of the requirement pattern
`-\s+\*\*([A-Z-]+)\*\*:\s+(.+)` at the head of `l`
(`SpecParser._extract_requirements`), the description already stripped as
by `match.group(2).strip()`.  The `[A-Z-]` ID class has no digits.  When
everything after the colon is whitespace, Python's backtracking still
matches if at least two characters remain (`\s+` keeps one, `(.+)`
captures one whitespace character that strips to empty). -/
def tryMatchB (l : List Char) : Option (List Char × List Char) := do
  let r1 ← expectChar '-' l
  let r2 ← expectWs1 r1
  let r3 ← expectChar '*' r2
  let r4 ← expectChar '*' r3
  let (idr, r5) ← expectRun idCharB r4
  let r6 ← expectChar '*' r5
  let r7 ← expectChar '*' r6
  let r8 ← expectChar ':' r7
  let r9 ← expectWs1 r8
  if r9.isEmpty then
    if 2 ≤ r8.length then some (idr, []) else none
  else some (idr, stripEnd r9)

/-- The first (leftmost) requirement match in a line.  The `(.+)` group
runs greedily to the end of the line, so `re.finditer` finds at most one
match per line and it is the leftmost one. -/
def scanLineB : List Char → Option (List Char × List Char)
  | [] => none
  | c :: cs =>
    match tryMatchB (c :: cs) with
    | some r => some r
    | none => scanLineB cs

/-- The `[USEON]` class of the kind-inference pattern. -/
def isUSEON (c : Char) : Bool := c = 'U' || c = 'S' || c = 'E' || c = 'O' || c = 'N'

/-- `re.search(r'-([USEON])-', req_id)`: first position where a dash, a
kind letter and a dash line up. -/
def inferTypeScan : List Char → Option Char
  | c :: d :: e :: rest =>
    if c = '-' && isUSEON d && e = '-' then some d
    else inferTypeScan (d :: e :: rest)
  | _ => none

/-- `SpecParser._extract_requirements` over the document lines: one
`Requirement` per matched line, kind inferred from the ID with default
`'U'`. -/
def extract_requirements (lines : List (List Char)) : List Requirement :=
  lines.filterMap (fun l =>
    (scanLineB l).map (fun p =>
      ⟨p.1, (inferTypeScan p.1).getD 'U', p.2⟩))

/-- Python `str.replace('- ', '')`: remove every (non-overlapping)
occurrence, scanning left to right. -/
def replaceDashSpace : List Char → List Char
  | '-' :: ' ' :: t => replaceDashSpace t
  | c :: t => c :: replaceDashSpace t
  | [] => []

/-- The `related_skills:\n((?:  - .*\n)*)` block: the run of `"  - "`
lines after the first line ending in `related_skills:`, each line
stripped and with every `"- "` removed. -/
def relatedSkills (fm : List (List Char)) : List (List Char) :=
  match fm.findIdx? (fun l => (chars "related_skills:").isSuffixOf l) with
  | none => []
  | some i =>
    ((fm.drop (i + 1)).takeWhile (fun l => (chars "  - ").isPrefixOf l)).map
      (fun l => replaceDashSpace (stripWs l))

/-- `re.search(r'\*\*Purpose\*\*: (.+)', content)`: first line carrying
the bolded Purpose marker with at least one character after it; empty
string when absent. -/
def extractPurpose : List (List Char) → List Char
  | [] => []
  | l :: rest =>
    match afterNeedle (chars "**Purpose**: ") l with
    | some aft => if aft.isEmpty then extractPurpose rest else aft
    | none => extractPurpose rest

/-- `SpecParser.parse`: fail only when no frontmatter block exists;
otherwise build the document, with `spec_id` and `feature` defaulting to
the empty string and the optional fields to their documented defaults. -/
def parse (lines : List (List Char)) : Except ParseError SpecDocument :=
  match extractFrontmatter lines with
  | none => .error .noFrontmatter
  | some fm =>
    .ok
      { spec_id := (extractFieldFrom (chars "spec_id:") fm).getD []
        feature := (extractFieldFrom (chars "feature:") fm).getD []
        status := (extractFieldFrom (chars "status:") fm).getD (chars "draft")
        version := (extractFieldFrom (chars "version:") fm).getD (chars "1.0.0")
        author := (extractFieldFrom (chars "author:") fm).getD (chars "Unknown")
        date := (extractFieldFrom (chars "date:") fm).getD []
        related_skills := relatedSkills fm
        requirements := extract_requirements lines
        purpose := extractPurpose lines }

theorem extractFieldFrom_none {needle : List Char} {ls : List (List Char)}
    (h : ∀ l ∈ ls, afterNeedle needle l = none) :
    extractFieldFrom needle ls = none := by
  induction ls with
  | nil => rfl
  | cons l rest ih =>
    rw [extractFieldFrom, h l (by simp)]
    exact ih (fun l' hl' => h l' (by simp [hl']))

/-! ## Claim C3 -/

/-- Counterexample to C3: a document whose header block lacks the
`spec_id` field parses successfully (no error is raised) with the spec ID
defaulting to the empty string, so a missing identifier is not a hard
parse failure. -/
theorem C3_counterexample :
    parse [chars "---", chars "feature: X", chars "---"] =
      .ok ⟨[], chars "X", chars "draft", chars "1.0.0", chars "Unknown", [],
        [], [], []⟩ := rfl

/-- C3 (amended): only a missing header block is a hard parse failure;
when a header block is present, parsing always returns a document, and a
missing spec identifier or feature name merely defaults that field to
the empty string. -/
theorem C3_header_fields_default (lines : List (List Char)) :
    (∀ fm, extractFrontmatter lines = some fm →
      ∃ d, parse lines = .ok d ∧
        ((∀ l ∈ fm, afterNeedle (chars "spec_id:") l = none) → d.spec_id = []) ∧
        ((∀ l ∈ fm, afterNeedle (chars "feature:") l = none) → d.feature = [])) ∧
    (extractFrontmatter lines = none → parse lines = .error .noFrontmatter) := by
  constructor
  · intro fm hfm
    refine ⟨_, by rw [parse, hfm], ?_, ?_⟩
    · intro hno
      simp only [extractFieldFrom_none hno, Option.getD_none]
    · intro hno
      simp only [extractFieldFrom_none hno, Option.getD_none]
  · intro hnone
    rw [parse, hnone]

/-- Witness for C3 (amended): the concrete header lacking `spec_id`. -/
theorem C3_header_fields_default_witness :
    extractFrontmatter [chars "---", chars "feature: X", chars "---"] =
      some [chars "feature: X"] ∧
    ∃ d, parse [chars "---", chars "feature: X", chars "---"] = .ok d ∧
      d.spec_id = [] :=
  ⟨rfl,
   match (C3_header_fields_default [chars "---", chars "feature: X", chars "---"]).1
     [chars "feature: X"] rfl with
   | ⟨d, hd, hs, _⟩ => ⟨d, hd, hs (by decide)⟩⟩

end CodeBuilder

namespace SpecBuilder

/-! ## Embedding of `spec_builder.py`: EARS generation and `create_spec`

`SpecBuilder.create_spec` writes the SPEC document; its content is built
here as a list of lines, following `_generate_spec_content` template
piece by template piece. -/

/-- `EARSRequirementGenerator.categorize_requirement`: keyword-driven
EARS classification with reformatting; the keyword tests run over the
lower-cased text, the `startswith` tests over the original. -/
def categorize_requirement (req : List Char) : Char × List Char :=
  let rl := lowerChars req
  if containsSub (chars "when") rl || containsSub (chars "on click") rl ||
      containsSub (chars "on tap") rl || containsSub (chars "trigger") rl ||
      containsSub (chars "event") rl then
    if !(chars "WHEN").isPrefixOf req then
      ('E', chars "WHEN [trigger event], the system shall " ++ req)
    else ('E', req)
  else if containsSub (chars "while") rl || containsSub (chars "during") rl ||
      containsSub (chars "in state") rl then
    if !(chars "WHILE").isPrefixOf req then
      ('S', chars "WHILE [in specific state], the system shall " ++ req)
    else ('S', req)
  else if containsSub (chars "shall not") rl || containsSub (chars "must not") rl ||
      containsSub (chars "cannot") rl || containsSub (chars "should not") rl then
    if !(chars "IF").isPrefixOf req then
      ('N', chars "IF [condition], THEN the system shall NOT " ++ req)
    else ('N', req)
  else if containsSub (chars "optional") rl || containsSub (chars "if enabled") rl ||
      containsSub (chars "where available") rl then
    if !(chars "WHERE").isPrefixOf req then
      ('O', chars "WHERE [feature is enabled], the system shall " ++ req)
    else ('O', req)
  else
    if !(chars "The system shall").isPrefixOf req then
      ('U', chars "The system shall " ++ req)
    else ('U', req)

/-- ASCII digit character for a value below 10. -/
def digitChar (n : Nat) : Char := Char.ofNat (48 + n)

/-- Decimal digits of a natural number, most significant first, with
explicit fuel so the definition stays structurally recursive (fuel
`n + 1` always suffices). -/
def natToCharsAux : Nat → Nat → List Char → List Char
  | 0, _, acc => acc
  | fuel + 1, n, acc =>
    if n < 10 then digitChar (n % 10) :: acc
    else natToCharsAux fuel (n / 10) (digitChar (n % 10) :: acc)

/-- Decimal rendering of a natural number. -/
def natToChars (n : Nat) : List Char := natToCharsAux (n + 1) n []

/-- Python's `f"{n:02d}"`: pad the decimal rendering to two characters
with a leading zero. -/
def pad2 (n : Nat) : List Char :=
  if (natToChars n).length < 2 then '0' :: natToChars n else natToChars n

/-- `EARSRequirementGenerator.generate_requirement_id`:
`f"REQ-{spec_id}-{req_type}-{number:02d}"`. -/
def generate_requirement_id (sid : List Char) (t : Char) (n : Nat) : List Char :=
  chars "REQ-" ++ sid ++ '-' :: t :: '-' :: pad2 n

/-- The requirements of one EARS kind, in input order, as formatted by
`categorize_requirement` (the per-kind lists of `categorized_reqs`). -/
def categorized (reqs : List (List Char)) (t : Char) : List (List Char) :=
  ((reqs.map categorize_requirement).filter (fun p => p.1 = t)).map (fun p => p.2)

/-- The `(req_id, req_type, requirement)` triples of one kind, numbered
from 1. -/
def earsOfType (sid : List Char) (reqs : List (List Char)) (t : Char) :
    List (List Char × Char × List Char) :=
  ((categorized reqs t).enumFrom 1).map
    (fun p => (generate_requirement_id sid t p.1, t, p.2))

/-- `ears_requirements` as assembled in `create_spec`: kinds in the
order U, S, E, O, N, numbered per kind. -/
def ears_requirements (sid : List Char) (reqs : List (List Char)) :
    List (List Char × Char × List Char) :=
  ['U', 'S', 'E', 'O', 'N'].flatMap (earsOfType sid reqs)

/-- Section title of one EARS kind in the requirements section. -/
def sectionTitle (t : Char) : List Char :=
  if t = 'U' then chars "Ubiquitous Requirements (Core Functionality)"
  else if t = 'S' then chars "State-Driven Requirements"
  else if t = 'E' then chars "Event-Driven Requirements"
  else if t = 'O' then chars "Optional Requirements"
  else chars "Unwanted Behaviors"

/-- Position of the kind in the `req_by_type` key order, one-based
(`list(req_by_type.keys()).index(req_type) + 1`). -/
def sectionIndex (t : Char) : Nat :=
  if t = 'U' then 1 else if t = 'S' then 2 else if t = 'E' then 3
  else if t = 'O' then 4 else 5

/-- The `*Format: ...*` comment line of one EARS kind. -/
def fmtLine (t : Char) : List Char :=
  if t = 'U' then chars "*Format: \"The system shall [requirement]\"*"
  else if t = 'S' then chars "*Format: \"WHILE [state], the system shall [requirement]\"*"
  else if t = 'E' then chars "*Format: \"WHEN [trigger event], the system shall [requirement]\"*"
  else if t = 'O' then
    chars "*Format: \"WHERE [feature is enabled], the system shall [requirement]\"*"
  else chars "*Format: \"IF [condition], THEN the system shall NOT [unwanted behavior]\"*"

/-- The lines written for one EARS kind in section 2: heading, format
comment, blank, one bullet per requirement, blank — or nothing when the
kind has no requirement. -/
def reqSection (ears : List (List Char × Char × List Char)) (t : Char) :
    List (List Char) :=
  let tr := ears.filter (fun r => r.2.1 = t)
  if tr.isEmpty then []
  else
    (chars "### 2." ++ natToChars (sectionIndex t) ++ ' ' :: sectionTitle t) ::
    fmtLine t :: [] ::
    (tr.map (fun r => chars "- **" ++ r.1 ++ chars "**: " ++ r.2.2) ++ [[]])

/-- The catalog description of a skill
(`SKILLS.get(skill, {}).get("description", "")`). -/
def skillDesc (sk : List Char) : List Char :=
  ((SKILLS.find? (fun e => e.name = sk)).map (fun e => e.description)).getD []

/-- Constant template lines from the end of section 2 through the
section 5 heading (user stories, architecture). -/
def storiesArchLines : List (List Char) :=
  [chars "---", [], chars "## 3. User Stories", [],
   chars "### Story 1: [User Story Title]",
   chars "**As a** [user type]",
   chars "**I want** [goal/desire]",
   chars "**So that** [benefit/value]", [],
   chars "**Acceptance Criteria**:",
   chars "- [ ] Given [precondition], when [action], then [expected result]", [],
   chars "**Related Requirements**: [REQ IDs]", [],
   chars "---", [],
   chars "## 4. Architecture (Clean Architecture)", [],
   chars "### 4.1 Domain Layer", [],
   chars "**Models**:",
   chars "```kotlin",
   chars "data class [ModelName](",
   chars "    val id: String,",
   chars "    // Add properties based on requirements",
   chars ")",
   chars "```", [],
   chars "**Use Cases**:",
   chars "- `Get[Entity]UseCase`: [Description]",
   chars "- `Create[Entity]UseCase`: [Description]", [],
   chars "**Repository Interfaces**:",
   chars "```kotlin",
   chars "interface [Entity]Repository \x7b",
   chars "    suspend fun get[Entity](id: String): Result<[Entity]>",
   chars "\x7d",
   chars "```", [],
   chars "### 4.2 Data Layer", [],
   chars "**API Endpoints**:",
   chars "- `GET /api/[endpoint]`: [Description]",
   chars "- `POST /api/[endpoint]`: [Description]", [],
   chars "**Database Schema**:",
   chars "```kotlin",
   chars "@Entity(tableName = \"[table_name]\")",
   chars "data class [Entity]Entity(",
   chars "    @PrimaryKey val id: String,",
   chars "    // Fields",
   chars ")",
   chars "```", [],
   chars "### 4.3 Presentation Layer", [],
   chars "**Screens**:",
   chars "- `[Feature]Screen.kt`: [Description]", [],
   chars "**ViewModels**:",
   chars "```kotlin",
   chars "@HiltViewModel",
   chars "class [Feature]ViewModel @Inject constructor() : ViewModel() \x7b",
   chars "    // Implementation",
   chars "\x7d",
   chars "```", [],
   chars "---", [],
   chars "## 5. Related Skills", [],
   chars "This feature uses the following Android skills:", []]

/-- Constant template lines from after the skill list through the
traceability-matrix table header (checklist, section 7 heading). -/
def checklistLines : List (List Char) :=
  [[], chars "---", [],
   chars "## 6. Implementation Checklist", [],
   chars "### Domain Layer",
   chars "- [ ] Define domain models",
   chars "- [ ] Create use cases",
   chars "- [ ] Define repository interfaces", [],
   chars "### Data Layer",
   chars "- [ ] Implement API service",
   chars "- [ ] Create database entities",
   chars "- [ ] Implement repository", [],
   chars "### Presentation Layer",
   chars "- [ ] Create ViewModel",
   chars "- [ ] Define State, Actions, Events",
   chars "- [ ] Implement UI screens", [],
   chars "### Testing",
   chars "- [ ] Write unit tests (85%+ coverage)",
   chars "- [ ] Write UI tests",
   chars "- [ ] Write integration tests", [],
   chars "### Documentation",
   chars "- [ ] Update README",
   chars "- [ ] Add code comments with SPEC IDs",
   chars "- [ ] Generate documentation", [],
   chars "---", [],
   chars "## 7. Traceability Matrix", [],
   chars "| Requirement | Code File | Test File | Status |",
   chars "|-------------|-----------|-----------|--------|"]

/-- Constant template lines after the matrix rows (legend, notes,
document footer) up to the `**Last Updated**` line. -/
def notesHeadLines : List (List Char) :=
  [[], chars "**Legend**: ⏳ Pending | 🟢 Implemented | ✅ Tested | ❌ Failed", [],
   chars "---", [],
   chars "## 8. Notes & Considerations", [],
   chars "### Next Steps",
   chars "1. Review and refine requirements",
   chars "2. Define detailed user stories",
   chars "3. Design data models",
   chars "4. Begin implementation", [],
   chars "### Questions to Resolve",
   chars "- [Question 1]",
   chars "- [Question 2]", [],
   chars "---", [],
   chars "**Document Version**: 1.0.0"]

/-- `SpecBuilder.create_spec` / `_generate_spec_content`: the lines of
the written SPEC document, as a function of the inputs (plus the
`datetime.now()` date string, taken as a parameter). -/
def createSpecLines (sid feature purpose : List Char) (reqs : List (List Char))
    (matched_skills : List (List Char)) (author today : List Char) :
    List (List Char) :=
  let ears := ears_requirements sid reqs
  [chars "---",
   chars "spec_id: SPEC-" ++ sid,
   chars "feature: " ++ feature,
   chars "status: draft",
   chars "version: 1.0.0",
   chars "author: " ++ author,
   chars "date: " ++ today,
   chars "related_skills:"] ++
  matched_skills.map (fun sk => chars "  - " ++ sk) ++
  [chars "traceability:",
   chars "  requirements: []",
   chars "  code_files: []",
   chars "  test_files: []",
   chars "---", []] ++
  [chars "# " ++ feature ++ chars " Specification", [],
   chars "## 1. Overview", [],
   chars "**Purpose**: " ++ purpose, [],
   chars "**Scope**:",
   chars "- In Scope: [To be defined]",
   chars "- Out of Scope: [To be defined]", [],
   chars "**Dependencies**:",
   chars "- External: [To be defined]",
   chars "- Internal: [To be defined]", [],
   chars "---", [],
   chars "## 2. Requirements (EARS Format)", []] ++
  reqSection ears 'U' ++ reqSection ears 'S' ++ reqSection ears 'E' ++
  reqSection ears 'O' ++ reqSection ears 'N' ++
  storiesArchLines ++
  matched_skills.map (fun sk => chars "- `" ++ sk ++ chars "`: " ++ skillDesc sk) ++
  checklistLines ++
  ears.map (fun r => chars "| " ++ r.1 ++ chars " | [TBD] | [TBD] | ⏳ Pending |") ++
  notesHeadLines ++
  [chars "**Last Updated**: " ++ today,
   chars "**Status**: Draft - Ready for review", []]

end SpecBuilder

/-! ## Character-class facts and line-scanner lemmas for claim C2 -/

/-- ASCII lowercase letter. -/
def isLowerChar (c : Char) : Bool := 'a' ≤ c && c ≤ 'z'

/-- The character alphabet of the benign inputs considered in the
round-trip analysis: letters, digits and spaces. -/
def benignChar (c : Char) : Bool :=
  isUpperChar c || isLowerChar c || isDigitChar c || c = ' '

/-- Benign input string: non-empty, over `benignChar`, with no leading
or trailing space. -/
def benignB (s : List Char) : Bool :=
  !s.isEmpty && s.all benignChar &&
    (match s.head? with | some c => !(c = ' ') | none => true) &&
    (match s.getLast? with | some c => !(c = ' ') | none => true)

theorem isUpperChar_of_digit {c : Char} (h : isDigitChar c = true) :
    isUpperChar c = false := by
  revert h
  simp only [isDigitChar, isUpperChar, Bool.and_eq_true, decide_eq_true_eq,
    Bool.and_eq_false_iff, decide_eq_false_iff_not]
  intro h1
  left
  intro h3
  obtain ⟨ha, hb⟩ := h1
  rw [Char.le_def] at ha hb h3
  have h4 : (48 : Nat) ≤ c.val.toNat := ha
  have h5 : c.val.toNat ≤ (57 : Nat) := hb
  have h6 : (65 : Nat) ≤ c.val.toNat := h3
  omega

theorem digit_facts {c : Char} (h : isDigitChar c = true) :
    c ≠ '-' ∧ c ≠ '*' ∧ isWsChar c = false ∧ idCharB c = false := by
  have h1 : c ≠ '-' := by intro he; rw [he] at h; exact absurd h (by decide)
  have h2 : c ≠ '*' := by intro he; rw [he] at h; exact absurd h (by decide)
  have h3 : isWsChar c = false := by
    by_contra hc
    rw [Bool.not_eq_false] at hc
    simp only [isWsChar, Bool.or_eq_true, decide_eq_true_eq] at hc
    obtain ((((he | he) | he) | he) | he) | he := hc <;>
      (rw [he] at h; exact absurd h (by decide))
  have h4 : idCharB c = false := by
    rw [idCharB, isUpperChar_of_digit h, Bool.false_or, decide_eq_false_iff_not]
    exact h1
  exact ⟨h1, h2, h3, h4⟩

theorem benignChar_facts {c : Char} (h : benignChar c = true) :
    c ≠ '-' ∧ c ≠ '*' ∧ c ≠ ':' := by
  refine ⟨?_, ?_, ?_⟩ <;>
    (intro he; rw [he] at h; exact absurd h (by decide))

theorem benignChar_nonws {c : Char} (h : benignChar c = true) (hs : c ≠ ' ') :
    isWsChar c = false := by
  by_contra hc
  rw [Bool.not_eq_false] at hc
  simp only [isWsChar, Bool.or_eq_true, decide_eq_true_eq] at hc
  obtain ((((he | he) | he) | he) | he) | he := hc
  · exact hs he
  all_goals (rw [he] at h; exact absurd h (by decide))

theorem benignB_parts {s : List Char} (h : benignB s = true) :
    s ≠ [] ∧ (∀ c ∈ s, benignChar c = true) ∧
      (∀ c, s.head? = some c → isWsChar c = false) ∧
      (∀ c, s.getLast? = some c → isWsChar c = false) := by
  simp only [benignB, Bool.and_eq_true] at h
  obtain ⟨⟨⟨h1, h2⟩, h3⟩, h4⟩ := h
  have hall : ∀ c ∈ s, benignChar c = true := List.all_eq_true.mp h2
  refine ⟨?_, hall, ?_, ?_⟩
  · intro he
    rw [he] at h1
    exact absurd h1 (by decide)
  · intro c hc
    rw [hc] at h3
    have hmem : c ∈ s := by
      cases s with
      | nil => simp at hc
      | cons a t =>
        simp only [List.head?_cons, Option.some.injEq] at hc
        rw [← hc]
        simp
    exact benignChar_nonws (hall c hmem) (by simpa using h3)
  · intro c hc
    rw [hc] at h4
    have hmem : c ∈ s := by
      obtain ⟨hne, heq⟩ := List.mem_getLast?_eq_getLast
        (show c ∈ s.getLast? from by rw [Option.mem_def, hc])
      rw [heq]
      exact List.getLast_mem hne
    exact benignChar_nonws (hall c hmem) (by simpa using h4)

namespace CodeBuilder

theorem tryMatchB_head_ne {c : Char} (cs : List Char) (h : c ≠ '-') :
    tryMatchB (c :: cs) = none := by
  simp [tryMatchB, expectChar, h]

theorem tryMatchB_dash_nonws {x : Char} (cs : List Char) (hx : isWsChar x = false) :
    tryMatchB ('-' :: x :: cs) = none := by
  simp [tryMatchB, expectChar, expectWs1, hx]

theorem tryMatchB_dash_nil : tryMatchB ['-'] = none := rfl

theorem scanLineB_cons_none {c : Char} {cs : List Char}
    (h : tryMatchB (c :: cs) = none) : scanLineB (c :: cs) = scanLineB cs := by
  simp [scanLineB, h]

theorem scanLineB_skip_no_dash (s : List Char) {r : List Char}
    (hs : ∀ c ∈ s, c ≠ '-') : scanLineB (s ++ r) = scanLineB r := by
  induction s with
  | nil => rfl
  | cons c s' ih =>
    rw [List.cons_append,
      scanLineB_cons_none (tryMatchB_head_ne _ (hs c (by simp)))]
    exact ih (fun x hx => hs x (by simp [hx]))

theorem scanLineB_no_dash {l : List Char} (hs : ∀ c ∈ l, c ≠ '-') :
    scanLineB l = none := by
  have h := scanLineB_skip_no_dash l (r := []) hs
  rw [List.append_nil] at h
  rw [h]
  rfl

theorem expectChar_eq_cons {a : Char} {l t : List Char}
    (h : expectChar a l = some t) : l = a :: t := by
  match l with
  | [] => simp [expectChar] at h
  | d :: t' =>
    simp only [expectChar] at h
    split at h <;> rename_i hd
    · cases h; rw [hd]
    · cases h

theorem expectWs1_sublist {l t : List Char} (h : expectWs1 l = some t) :
    t.Sublist l := by
  match l with
  | [] => simp [expectWs1] at h
  | d :: t' =>
    simp only [expectWs1] at h
    split at h
    · cases h
      exact (List.dropWhile_sublist _)
    · cases h

theorem tryMatchB_star_mem {l : List Char} {r : List Char × List Char}
    (h : tryMatchB l = some r) : '*' ∈ l := by
  simp only [tryMatchB, Option.bind_eq_bind, Option.bind_eq_some] at h
  obtain ⟨r1, h1, r2, h2, r3, h3, _⟩ := h
  have e1 := expectChar_eq_cons h1
  have e2 := expectWs1_sublist h2
  have e3 := expectChar_eq_cons h3
  rw [e1]
  right
  exact e2.subset (by rw [e3]; simp)

theorem scanLineB_no_star {l : List Char} (hs : ∀ c ∈ l, c ≠ '*') :
    scanLineB l = none := by
  induction l with
  | nil => rfl
  | cons c cs ih =>
    have hnone : tryMatchB (c :: cs) = none := by
      match he : tryMatchB (c :: cs) with
      | none => rfl
      | some r => exact absurd rfl (hs '*' (tryMatchB_star_mem he))
    rw [scanLineB_cons_none hnone]
    exact ih (fun x hx => hs x (by simp [hx]))

theorem scanLineB_digit_dash {l : List Char}
    (hs : ∀ c ∈ l, isDigitChar c = true ∨ c = '-') : scanLineB l = none := by
  induction l with
  | nil => rfl
  | cons c cs ih =>
    have hrest : ∀ x ∈ cs, isDigitChar x = true ∨ x = '-' :=
      fun x hx => hs x (by simp [hx])
    rcases hs c (by simp) with hd | hd
    · rw [scanLineB_cons_none (tryMatchB_head_ne _ (digit_facts hd).1)]
      exact ih hrest
    · subst hd
      match cs with
      | [] =>
        rw [scanLineB_cons_none tryMatchB_dash_nil]
        rfl
      | x :: cs' =>
        have hxw : isWsChar x = false := by
          rcases hrest x (by simp) with hx | hx
          · exact (digit_facts hx).2.2.1
          · rw [hx]; rfl
        rw [scanLineB_cons_none (tryMatchB_dash_nonws _ hxw)]
        exact ih hrest

end CodeBuilder

namespace CodeBuilder

theorem dropWhile_head_facts {p : Char → Bool} {l : List Char} {h : Char} {t : List Char}
    (he : l.dropWhile p = h :: t) : p h = false ∧ h ∈ l := by
  induction l with
  | nil => simp at he
  | cons c cs ih =>
    rw [List.dropWhile_cons] at he
    split at he
    · obtain ⟨h1, h2⟩ := ih he
      exact ⟨h1, by simp [h2]⟩
    · rename_i hc
      cases he
      exact ⟨by simpa using hc, by simp⟩

theorem tryMatchB_reqline_head (d : Char) (rest : List Char)
    (hd : isDigitChar d = true) :
    tryMatchB ('-' :: ' ' :: '*' :: '*' :: 'R' :: 'E' :: 'Q' :: '-' :: d :: rest) = none := by
  have h1 : idCharB d = false := (digit_facts hd).2.2.2
  have h2 : d ≠ '*' := (digit_facts hd).2.1
  simp [tryMatchB, expectChar, expectWs1, expectRun, List.dropWhile_cons,
    List.takeWhile_cons, h1, h2,
    show isWsChar ' ' = true from by decide,
    show isWsChar '*' = false from by decide,
    show idCharB 'R' = true from by decide,
    show idCharB 'E' = true from by decide,
    show idCharB 'Q' = true from by decide,
    show idCharB '-' = true from by decide]

end CodeBuilder

namespace CodeBuilder

theorem scanLineB_reqLine (sid nn desc : List Char) (T : Char)
    (hsid : sid ≠ []) (hsidd : ∀ c ∈ sid, isDigitChar c = true)
    (hnn : nn ≠ []) (hnnd : ∀ c ∈ nn, isDigitChar c = true)
    (hT : T ∈ (['U', 'S', 'E', 'O', 'N'] : List Char))
    (hdesc : ∀ c ∈ desc, c ≠ '-') :
    scanLineB (chars "- **" ++ (chars "REQ-" ++ sid ++ '-' :: T :: '-' :: nn) ++
      chars "**: " ++ desc) = none := by
  obtain ⟨d, sidt, rfl⟩ : ∃ d sidt, sid = d :: sidt := by
    cases sid with
    | nil => exact absurd rfl hsid
    | cons a b => exact ⟨a, b, rfl⟩
  obtain ⟨m, nnt, rfl⟩ : ∃ m nnt, nn = m :: nnt := by
    cases nn with
    | nil => exact absurd rfl hnn
    | cons a b => exact ⟨a, b, rfl⟩
  have hd : isDigitChar d = true := hsidd d (by simp)
  have hm : isDigitChar m = true := hnnd m (by simp)
  have hsidt : ∀ c ∈ sidt, c ≠ '-' := fun c hc =>
    (digit_facts (hsidd c (by simp [hc]))).1
  have hnnt : ∀ c ∈ nnt, c ≠ '-' := fun c hc =>
    (digit_facts (hnnd c (by simp [hc]))).1
  have hTd : ¬ isWsChar T = true ∧ T ≠ '-' := by
    fin_cases hT <;> exact ⟨by decide, by decide⟩
  refine (scanLineB_cons_none (tryMatchB_reqline_head d _ hd)).trans ?_
  refine (scanLineB_cons_none (tryMatchB_head_ne _ (by decide))).trans ?_
  refine (scanLineB_cons_none (tryMatchB_head_ne _ (by decide))).trans ?_
  refine (scanLineB_cons_none (tryMatchB_head_ne _ (by decide))).trans ?_
  refine (scanLineB_cons_none (tryMatchB_head_ne _ (by decide))).trans ?_
  refine (scanLineB_cons_none (tryMatchB_head_ne _ (by decide))).trans ?_
  refine (scanLineB_cons_none (tryMatchB_head_ne _ (by decide))).trans ?_
  -- at '-' :: d :: (sidt ++ ...)
  refine (scanLineB_cons_none (tryMatchB_dash_nonws _ (digit_facts hd).2.2.1)).trans ?_
  refine (scanLineB_cons_none (tryMatchB_head_ne _ (digit_facts hd).1)).trans ?_
  simp only [List.append_eq, List.append_assoc, List.cons_append]
  refine (scanLineB_skip_no_dash sidt hsidt).trans ?_
  refine (scanLineB_cons_none (tryMatchB_dash_nonws _ (by simpa using hTd.1))).trans ?_
  refine (scanLineB_cons_none (tryMatchB_head_ne _ hTd.2)).trans ?_
  refine (scanLineB_cons_none (tryMatchB_dash_nonws _ (digit_facts hm).2.2.1)).trans ?_
  refine (scanLineB_cons_none (tryMatchB_head_ne _ (digit_facts hm).1)).trans ?_
  refine (scanLineB_skip_no_dash nnt hnnt).trans ?_
  refine (scanLineB_cons_none (tryMatchB_head_ne _ (by decide))).trans ?_
  refine (scanLineB_cons_none (tryMatchB_head_ne _ (by decide))).trans ?_
  refine (scanLineB_cons_none (tryMatchB_head_ne _ (by decide))).trans ?_
  refine (scanLineB_cons_none (tryMatchB_head_ne _ (by decide))).trans ?_
  exact scanLineB_no_dash hdesc

end CodeBuilder

/-! ## Frontmatter and field-value lemmas for claim C2 -/

theorem findIdx?_append_none {p : List Char → Bool} {a : List (List Char)}
    (b : List (List Char)) (i : Nat) (ha : ∀ x ∈ a, p x = false) :
    List.findIdx? p (a ++ b) i = List.findIdx? p b (i + a.length) := by
  induction a generalizing i with
  | nil => simp
  | cons x a' ih =>
    rw [List.cons_append, List.findIdx?_cons, if_neg (by simp [ha x (by simp)])]
    rw [ih (i + 1) (fun y hy => ha y (by simp [hy]))]
    exact congrArg (fun j => List.findIdx? p b j) (by simp; omega)

theorem extractFrontmatter_shape (inner post : List (List Char))
    (hin : ∀ l ∈ inner, ((chars "---").isPrefixOf l) = false) :
    extractFrontmatter (chars "---" :: (inner ++ chars "---" :: post)) = some inner := by
  have h1 : (chars "---" :: (inner ++ chars "---" :: post)).findIdx?
      (fun l => (chars "---").isSuffixOf l) = some 0 := by
    rw [List.findIdx?_cons, if_pos (by decide)]
  have h2 : (inner ++ chars "---" :: post).findIdx?
      (fun l => (chars "---").isPrefixOf l) = some inner.length := by
    rw [findIdx?_append_none _ 0 hin, List.findIdx?_cons, if_pos (by decide)]
    simp
  simp only [extractFrontmatter, h1, List.drop_succ_cons, List.drop_zero, h2]
  rw [List.take_left]

theorem stripEnd_eq_self {l : List Char}
    (h : ∀ c, l.getLast? = some c → isWsChar c = false) : stripEnd l = l := by
  rw [stripEnd]
  cases hrev : l.reverse with
  | nil =>
    have : l = [] := by simpa using congrArg List.reverse hrev
    rw [this]
    rfl
  | cons c t =>
    have hlast : l.getLast? = some c := by
      rw [← List.head?_reverse, hrev, List.head?_cons]
    rw [List.dropWhile_cons, if_neg (by simp [h c hlast])]
    rw [← hrev, List.reverse_reverse]

theorem afterNeedle_none_of_not_mem {needle l : List Char} {c : Char}
    (hcn : c ∈ needle) (hcl : c ∉ l) : afterNeedle needle l = none := by
  induction l with
  | nil =>
    rw [afterNeedle, if_neg]
    intro hpre
    exact hcl ((List.isPrefixOf_iff_prefix.mp hpre).subset hcn)
  | cons d t ih =>
    rw [afterNeedle, if_neg, ih (fun hc => hcl (by simp [hc]))]
    intro hpre
    exact hcl ((List.isPrefixOf_iff_prefix.mp hpre).subset hcn)

namespace SpecBuilder

/-! ## Digit-rendering and EARS-structure lemmas for claim C2 -/

theorem digitChar_isDigit (m : Nat) (hm : m < 10) :
    isDigitChar (digitChar m) = true := by
  interval_cases m <;> decide

theorem natToCharsAux_digits :
    ∀ (fuel n : Nat) (acc : List Char), (∀ c ∈ acc, isDigitChar c = true) →
      ∀ c ∈ natToCharsAux fuel n acc, isDigitChar c = true := by
  intro fuel
  induction fuel with
  | zero => intro n acc hacc c hc; exact hacc c hc
  | succ f ih =>
    intro n acc hacc c hc
    rw [natToCharsAux] at hc
    split at hc
    · rcases List.mem_cons.mp hc with rfl | hmem
      · exact digitChar_isDigit _ (Nat.mod_lt _ (by omega))
      · exact hacc c hmem
    · refine ih _ _ ?_ c hc
      intro x hx
      rcases List.mem_cons.mp hx with rfl | hmem
      · exact digitChar_isDigit _ (Nat.mod_lt _ (by omega))
      · exact hacc x hmem

theorem natToCharsAux_ne_nil :
    ∀ (fuel n : Nat) (acc : List Char), acc ≠ [] → natToCharsAux fuel n acc ≠ [] := by
  intro fuel
  induction fuel with
  | zero => intro n acc hacc; exact hacc
  | succ f ih =>
    intro n acc hacc
    rw [natToCharsAux]
    split
    · simp
    · exact ih _ _ (by simp)

theorem natToChars_ne_nil (n : Nat) : natToChars n ≠ [] := by
  rw [natToChars, natToCharsAux]
  split
  · simp
  · exact natToCharsAux_ne_nil _ _ _ (by simp)

theorem pad2_digits (n : Nat) : ∀ c ∈ pad2 n, isDigitChar c = true := by
  intro c hc
  rw [pad2] at hc
  split at hc
  · rcases List.mem_cons.mp hc with rfl | hmem
    · decide
    · exact natToCharsAux_digits _ _ _ (by simp) c hmem
  · exact natToCharsAux_digits _ _ _ (by simp) c hc

theorem pad2_ne_nil (n : Nat) : pad2 n ≠ [] := by
  rw [pad2]
  split
  · simp
  · exact natToChars_ne_nil n

theorem categorize_no_dash {req : List Char}
    (h : ∀ c ∈ req, benignChar c = true) :
    ∀ c ∈ (categorize_requirement req).2, c ≠ '-' := by
  intro c hc
  have hreq : c ∈ req → c ≠ '-' := fun hm => (benignChar_facts (h c hm)).1
  simp only [categorize_requirement] at hc
  split_ifs at hc <;>
    first
      | exact hreq hc
      | (rcases List.mem_append.mp hc with hm | hm
         · first
           | exact (by decide :
               ∀ x ∈ chars "WHEN [trigger event], the system shall ", x ≠ '-') c hm
           | exact (by decide :
               ∀ x ∈ chars "WHILE [in specific state], the system shall ", x ≠ '-') c hm
           | exact (by decide :
               ∀ x ∈ chars "IF [condition], THEN the system shall NOT ", x ≠ '-') c hm
           | exact (by decide :
               ∀ x ∈ chars "WHERE [feature is enabled], the system shall ", x ≠ '-') c hm
           | exact (by decide :
               ∀ x ∈ chars "The system shall ", x ≠ '-') c hm
         · exact hreq hm)

theorem ears_mem {sid : List Char} {reqs : List (List Char)}
    {r : List Char × Char × List Char} (hr : r ∈ ears_requirements sid reqs) :
    ∃ t n req, r = (generate_requirement_id sid t n, t, (categorize_requirement req).2) ∧
      t ∈ (['U', 'S', 'E', 'O', 'N'] : List Char) ∧ req ∈ reqs := by
  simp only [ears_requirements, List.mem_flatMap] at hr
  obtain ⟨t, ht, hrt⟩ := hr
  simp only [earsOfType, List.mem_map] at hrt
  obtain ⟨⟨i, x⟩, hp, rfl⟩ := hrt
  have hx : x ∈ categorized reqs t := by
    obtain ⟨-, -, hget⟩ := List.mem_enumFrom hp
    rw [hget]
    exact List.getElem_mem _
  simp only [categorized, List.mem_map, List.mem_filter] at hx
  obtain ⟨a, ⟨⟨q, hq, rfl⟩, hqt⟩, hax⟩ := hx
  exact ⟨t, i, q, by rw [hax], ht, hq⟩

end SpecBuilder

namespace SpecBuilder

theorem genId_no_star {sid : List Char} {t : Char} (n : Nat)
    (hsid : ∀ c ∈ sid, isDigitChar c = true)
    (ht : t ∈ (['U', 'S', 'E', 'O', 'N'] : List Char)) :
    ∀ c ∈ generate_requirement_id sid t n, c ≠ '*' := by
  intro c hc
  simp only [generate_requirement_id, List.mem_append, List.mem_cons] at hc
  rcases hc with (hm | hm) | rfl | rfl | rfl | hm
  · exact (by decide : ∀ x ∈ chars "REQ-", x ≠ '*') c hm
  · exact (digit_facts (hsid c hm)).2.1
  · decide
  · fin_cases ht <;> decide
  · decide
  · exact (digit_facts (pad2_digits n c hm)).2.1

theorem skills_no_star : ∀ nm ∈ SKILLS.map (fun e => e.name), ∀ c ∈ nm, c ≠ '*' := by
  decide

theorem skillDesc_no_star (sk : List Char) : ∀ c ∈ skillDesc sk, c ≠ '*' := by
  intro c hc
  rw [skillDesc] at hc
  cases hfind : SKILLS.find? (fun e => e.name = sk) with
  | none => rw [hfind] at hc; exact absurd hc (List.not_mem_nil c)
  | some e =>
    rw [hfind] at hc
    have he : e ∈ SKILLS := List.mem_of_find?_eq_some hfind
    exact (by decide : ∀ x ∈ SKILLS, ∀ c ∈ x.description, c ≠ '*') e he c hc

theorem reqSection_scan {sid : List Char} {reqs : List (List Char)} {t : Char}
    (hsid : sid ≠ []) (hsidd : ∀ c ∈ sid, isDigitChar c = true)
    (hbr : ∀ r ∈ reqs, ∀ c ∈ r, benignChar c = true)
    {l : List Char} (hl : l ∈ reqSection (ears_requirements sid reqs) t)
    (hconst : CodeBuilder.scanLineB
      (chars "### 2." ++ natToChars (sectionIndex t) ++ ' ' :: sectionTitle t) = none)
    (hfmt : CodeBuilder.scanLineB (fmtLine t) = none) :
    CodeBuilder.scanLineB l = none := by
  rw [reqSection] at hl
  split at hl
  · exact absurd hl (List.not_mem_nil l)
  · rcases List.mem_cons.mp hl with rfl | hl
    · exact hconst
    rcases List.mem_cons.mp hl with rfl | hl
    · exact hfmt
    rcases List.mem_cons.mp hl with rfl | hl
    · rfl
    rcases List.mem_append.mp hl with hl | hl
    · obtain ⟨r, hrtr, rfl⟩ := List.mem_map.mp hl
      have hr : r ∈ ears_requirements sid reqs := (List.mem_filter.mp hrtr).1
      obtain ⟨t', n, q, rfl, ht', hq⟩ := ears_mem hr
      simp only [generate_requirement_id]
      exact CodeBuilder.scanLineB_reqLine sid (pad2 n) _ t' hsid hsidd
        (pad2_ne_nil n) (pad2_digits n) ht' (categorize_no_dash (hbr q hq))
    · rcases List.mem_singleton.mp hl with rfl
      rfl

theorem createSpec_lines_scan (sid f p : List Char) (reqs skills : List (List Char))
    (today : List Char)
    (hsid : sid ≠ []) (hsidd : ∀ c ∈ sid, isDigitChar c = true)
    (hf : ∀ c ∈ f, benignChar c = true)
    (hp : ∀ c ∈ p, benignChar c = true)
    (hbr : ∀ r ∈ reqs, ∀ c ∈ r, benignChar c = true)
    (hskills : ∀ sk ∈ skills, sk ∈ SKILLS.map (fun e => e.name))
    (htoday : ∀ c ∈ today, isDigitChar c = true ∨ c = '-') :
    ∀ l ∈ createSpecLines sid f p reqs skills (chars "Claude Code") today,
      CodeBuilder.scanLineB l = none := by
  intro l hl
  simp only [createSpecLines, List.mem_append, List.mem_cons,
    List.not_mem_nil, or_false] at hl
  have hskline : ∀ sk ∈ skills, ∀ c ∈ sk, c ≠ '*' := fun sk hsk =>
    skills_no_star sk (hskills sk hsk)
  rcases hl with ((((((((((((((hl | hl) | hl) | hl) | hl) | hl) | hl) | hl) | hl) | hl) | hl) | hl) | hl) | hl) | hl)
  · rcases hl with rfl | rfl | rfl | rfl | rfl | rfl | rfl | rfl
    · rfl
    · exact CodeBuilder.scanLineB_no_star (fun c hc => by
        rcases List.mem_append.mp hc with hm | hm
        · exact (by decide : ∀ x ∈ chars "spec_id: SPEC-", x ≠ '*') c hm
        · exact (digit_facts (hsidd c hm)).2.1)
    · exact CodeBuilder.scanLineB_no_star (fun c hc => by
        rcases List.mem_append.mp hc with hm | hm
        · exact (by decide : ∀ x ∈ chars "feature: ", x ≠ '*') c hm
        · exact (benignChar_facts (hf c hm)).2.1)
    · rfl
    · rfl
    · decide
    · exact CodeBuilder.scanLineB_no_star (fun c hc => by
        rcases List.mem_append.mp hc with hm | hm
        · exact (by decide : ∀ x ∈ chars "date: ", x ≠ '*') c hm
        · rcases htoday c hm with hd | rfl
          · exact (digit_facts hd).2.1
          · decide)
    · rfl
  · obtain ⟨sk, hsk, rfl⟩ := List.mem_map.mp hl
    exact CodeBuilder.scanLineB_no_star (fun c hc => by
      rcases List.mem_append.mp hc with hm | hm
      · exact (by decide : ∀ x ∈ chars "  - ", x ≠ '*') c hm
      · exact hskline sk hsk c hm)
  · rcases hl with rfl | rfl | rfl | rfl | rfl | rfl
    all_goals first | rfl | decide
  · rcases hl with rfl | rfl | rfl | rfl | rfl | rfl | rfl | rfl | rfl | rfl | rfl |
      rfl | rfl | rfl | rfl | rfl | rfl | rfl
    · exact CodeBuilder.scanLineB_no_star (fun c hc => by
        rcases List.mem_append.mp hc with hm | hm
        · rcases List.mem_append.mp hm with hm2 | hm2
          · exact (by decide : ∀ x ∈ chars "# ", x ≠ '*') c hm2
          · exact (benignChar_facts (hf c hm2)).2.1
        · exact (by decide : ∀ x ∈ chars " Specification", x ≠ '*') c hm)
    · rfl
    · decide
    · rfl
    · exact CodeBuilder.scanLineB_no_dash (fun c hc => by
        rcases List.mem_append.mp hc with hm | hm
        · exact (by decide : ∀ x ∈ chars "**Purpose**: ", x ≠ '-') c hm
        · exact (benignChar_facts (hp c hm)).1)
    all_goals first | rfl | decide
  · exact reqSection_scan hsid hsidd hbr hl (by decide) (by decide)
  · exact reqSection_scan hsid hsidd hbr hl (by decide) (by decide)
  · exact reqSection_scan hsid hsidd hbr hl (by decide) (by decide)
  · exact reqSection_scan hsid hsidd hbr hl (by decide) (by decide)
  · exact reqSection_scan hsid hsidd hbr hl (by decide) (by decide)
  · exact (by decide : ∀ x ∈ storiesArchLines, CodeBuilder.scanLineB x = none) l hl
  · obtain ⟨sk, hsk, rfl⟩ := List.mem_map.mp hl
    exact CodeBuilder.scanLineB_no_star (fun c hc => by
      rcases List.mem_append.mp hc with hm | hm
      · rcases List.mem_append.mp hm with hm2 | hm2
        · rcases List.mem_append.mp hm2 with hm3 | hm3
          · exact (by decide : ∀ x ∈ chars "- `", x ≠ '*') c hm3
          · exact hskline sk hsk c hm3
        · exact (by decide : ∀ x ∈ chars "`: ", x ≠ '*') c hm2
      · exact skillDesc_no_star sk c hm)
  · exact (by decide : ∀ x ∈ checklistLines, CodeBuilder.scanLineB x = none) l hl
  · obtain ⟨r, hr, rfl⟩ := List.mem_map.mp hl
    obtain ⟨t2, n, q, rfl, ht2, hq⟩ := ears_mem hr
    exact CodeBuilder.scanLineB_no_star (fun c hc => by
      rcases List.mem_append.mp hc with hm | hm
      · rcases List.mem_append.mp hm with hm2 | hm2
        · exact (by decide : ∀ x ∈ chars "| ", x ≠ '*') c hm2
        · exact genId_no_star n hsidd ht2 c hm2
      · exact (by decide :
          ∀ x ∈ chars " | [TBD] | [TBD] | ⏳ Pending |", x ≠ '*') c hm)
  · exact (by decide : ∀ x ∈ notesHeadLines, CodeBuilder.scanLineB x = none) l hl
  · rcases hl with rfl | rfl | rfl
    · refine (CodeBuilder.scanLineB_skip_no_dash (chars "**Last Updated**: ")
        (by decide)).trans ?_
      exact CodeBuilder.scanLineB_digit_dash htoday
    · decide
    · rfl

end SpecBuilder

/-! ## Round-trip lemmas for claim C2 -/

theorem isPrefixOf_dash3_false {c : Char} (hc : c ≠ '-') (l : List Char) :
    ((chars "---").isPrefixOf (c :: l)) = false := by
  show (('-' :: chars "--").isPrefixOf (c :: l)) = false
  rw [List.isPrefixOf]
  simp only [Bool.and_eq_false_iff]
  left
  simpa using fun h => hc h.symm

theorem afterNeedle_prefix (needle rest : List Char) (hne : needle ≠ []) :
    afterNeedle needle (needle ++ rest) = some rest := by
  cases needle with
  | nil => exact absurd rfl hne
  | cons c t =>
    rw [List.cons_append, afterNeedle]
    rw [if_pos (List.isPrefixOf_iff_prefix.mpr (by
      rw [← List.cons_append]; exact List.prefix_append _ _))]
    rw [← List.cons_append, List.drop_left]

namespace SpecBuilder

/-- The frontmatter lines of a generated document after the identifier
and feature lines. -/
def fmTail (today : List Char) (skills : List (List Char)) : List (List Char) :=
  [chars "status: draft",
   chars "version: 1.0.0",
   chars "author: " ++ chars "Claude Code",
   chars "date: " ++ today,
   chars "related_skills:"] ++
  skills.map (fun sk => chars "  - " ++ sk) ++
  [chars "traceability:",
   chars "  requirements: []",
   chars "  code_files: []",
   chars "  test_files: []"]

/-- The lines of the frontmatter block a generated document carries
between its two `---` delimiters. -/
def fmInner (sid f today : List Char) (skills : List (List Char)) :
    List (List Char) :=
  (chars "spec_id: SPEC-" ++ sid) :: (chars "feature: " ++ f) :: fmTail today skills

theorem fmInner_no_dash (sid f today : List Char) (skills : List (List Char)) :
    ∀ l ∈ fmInner sid f today skills, ((chars "---").isPrefixOf l) = false := by
  intro l hl
  simp only [fmInner, fmTail, List.mem_append, List.mem_cons, List.not_mem_nil,
    or_false, List.mem_map] at hl
  rcases hl with rfl | rfl | ((rfl | rfl | rfl | rfl | rfl) | ⟨sk, hsk, rfl⟩) |
    rfl | rfl | rfl | rfl
  · exact isPrefixOf_dash3_false (by decide) _
  · exact isPrefixOf_dash3_false (by decide) _
  · decide
  · decide
  · decide
  · exact isPrefixOf_dash3_false (by decide) _
  · decide
  · exact isPrefixOf_dash3_false (by decide) _
  · decide
  · decide
  · decide
  · decide

theorem createSpec_frontmatter (sid f p : List Char) (reqs skills : List (List Char))
    (today : List Char) :
    extractFrontmatter (createSpecLines sid f p reqs skills (chars "Claude Code") today)
      = some (fmInner sid f today skills) := by
  have hshape : createSpecLines sid f p reqs skills (chars "Claude Code") today =
      chars "---" :: (fmInner sid f today skills ++ chars "---" ::
        ([] :: ([chars "# " ++ f ++ chars " Specification", [],
          chars "## 1. Overview", [],
          chars "**Purpose**: " ++ p, [],
          chars "**Scope**:",
          chars "- In Scope: [To be defined]",
          chars "- Out of Scope: [To be defined]", [],
          chars "**Dependencies**:",
          chars "- External: [To be defined]",
          chars "- Internal: [To be defined]", [],
          chars "---", [],
          chars "## 2. Requirements (EARS Format)", []] ++
        reqSection (ears_requirements sid reqs) 'U' ++
        reqSection (ears_requirements sid reqs) 'S' ++
        reqSection (ears_requirements sid reqs) 'E' ++
        reqSection (ears_requirements sid reqs) 'O' ++
        reqSection (ears_requirements sid reqs) 'N' ++
        storiesArchLines ++
        skills.map (fun sk => chars "- `" ++ sk ++ chars "`: " ++ skillDesc sk) ++
        checklistLines ++
        (ears_requirements sid reqs).map
          (fun r => chars "| " ++ r.1 ++ chars " | [TBD] | [TBD] | ⏳ Pending |") ++
        notesHeadLines ++
        [chars "**Last Updated**: " ++ today,
         chars "**Status**: Draft - Ready for review", []]))) := by
    simp only [createSpecLines, fmInner, fmTail, List.append_assoc, List.cons_append,
      List.nil_append]
  rw [hshape]
  exact extractFrontmatter_shape _ _ (fmInner_no_dash sid f today skills)

end SpecBuilder

namespace SpecBuilder

theorem fmInner_spec_id (sid f today : List Char) (skills : List (List Char))
    (hsid : sid ≠ []) (hsidd : ∀ c ∈ sid, isDigitChar c = true) :
    extractFieldFrom (chars "spec_id:") (fmInner sid f today skills)
      = some (chars "SPEC-" ++ sid) := by
  have h1 : afterNeedle (chars "spec_id:") (chars "spec_id: SPEC-" ++ sid)
      = some (chars " SPEC-" ++ sid) :=
    afterNeedle_prefix (chars "spec_id:") (chars " SPEC-" ++ sid) (by decide)
  have h2 : List.dropWhile isWsChar (chars " SPEC-" ++ sid) = chars "SPEC-" ++ sid := by
    show List.dropWhile isWsChar (' ' :: (chars "SPEC-" ++ sid)) = chars "SPEC-" ++ sid
    rw [List.dropWhile_cons, if_pos (by decide)]
    show List.dropWhile isWsChar ('S' :: (chars "PEC-" ++ sid)) = _
    rw [List.dropWhile_cons, if_neg (by decide)]
    rfl
  have h3 : stripEnd (chars "SPEC-" ++ sid) = chars "SPEC-" ++ sid := by
    apply stripEnd_eq_self
    intro c hc
    rw [List.getLast?_append_of_ne_nil _ hsid] at hc
    have hmem : c ∈ sid := by
      obtain ⟨hne, heq⟩ := List.mem_getLast?_eq_getLast
        (show c ∈ sid.getLast? from by rw [Option.mem_def, hc])
      rw [heq]
      exact List.getLast_mem hne
    exact (digit_facts (hsidd c hmem)).2.2.1
  have h4 : (chars "SPEC-" ++ sid).isEmpty = false := rfl
  rw [fmInner, extractFieldFrom, h1]
  show (if (List.dropWhile isWsChar (chars " SPEC-" ++ sid)).isEmpty then
      firstContent (fmTail today skills)
    else some (stripEnd (List.dropWhile isWsChar (chars " SPEC-" ++ sid)))) = _
  rw [h2, if_neg (by rw [h4]; exact Bool.false_ne_true), h3]

theorem fmInner_feature (sid f today : List Char) (skills : List (List Char))
    (hsidd : ∀ c ∈ sid, isDigitChar c = true) (hf : benignB f = true) :
    extractFieldFrom (chars "feature:") (fmInner sid f today skills) = some f := by
  obtain ⟨hfne, hfall, hfhead, hflast⟩ := benignB_parts hf
  have h0 : afterNeedle (chars "feature:") (chars "spec_id: SPEC-" ++ sid) = none := by
    apply afterNeedle_none_of_not_mem (show ('f' : Char) ∈ chars "feature:" by decide)
    intro hmem
    rcases List.mem_append.mp hmem with hm | hm
    · exact absurd hm (by decide)
    · exact absurd (hsidd _ hm) (by decide)
  have h1 : afterNeedle (chars "feature:") (chars "feature: " ++ f) = some (' ' :: f) :=
    afterNeedle_prefix (chars "feature:") (' ' :: f) (by decide)
  have h2 : List.dropWhile isWsChar (' ' :: f) = f := by
    rw [List.dropWhile_cons, if_pos (by decide)]
    cases hcf : f with
    | nil => rfl
    | cons c t =>
      rw [List.dropWhile_cons, if_neg]
      simp only [Bool.not_eq_true]
      exact hfhead c (by rw [hcf, List.head?_cons])
  have h4 : f.isEmpty = false := by
    rw [Bool.eq_false_iff]
    intro hemp
    exact hfne (List.isEmpty_iff.mp hemp)
  rw [fmInner, extractFieldFrom, h0, extractFieldFrom, h1]
  show (if (List.dropWhile isWsChar (' ' :: f)).isEmpty then
      firstContent (fmTail today skills)
    else some (stripEnd (List.dropWhile isWsChar (' ' :: f)))) = _
  rw [h2, if_neg (by rw [h4]; exact Bool.false_ne_true), stripEnd_eq_self hflast]

end SpecBuilder

namespace SpecBuilder

set_option maxRecDepth 10000 in
/-- C2: counterexample to the claimed round trip.  Creating a document for
spec ID `001`, feature `Login` and one requirement, then parsing it back,
returns spec ID `SPEC-001` (the writer prefixes `SPEC-`, the reader does
not strip it) and an empty requirement list (the generated IDs
`REQ-001-T-NN` contain digits, which the `[A-Z-]+` ID class of the
reader's requirement pattern rejects). -/
theorem C2_counterexample :
    (CodeBuilder.parse (createSpecLines (chars "001") (chars "Login")
        (chars "Authenticate users") [chars "store credentials"]
        (match_skills (chars "Authenticate users") [chars "store credentials"])
        (chars "Claude Code") (chars "2025-01-15"))).toOption.map
      (fun d => (d.spec_id, d.requirements.length))
      = some (chars "SPEC-001", 0) ∧ chars "SPEC-001" ≠ chars "001" := by
  exact ⟨rfl, by decide⟩

/-- C2 (amended): for digit spec IDs and benign inputs the generated
document parses back successfully, but the parsed spec ID is the input
prefixed with `SPEC-` and the parsed requirement list is always empty;
the feature name alone round-trips unchanged. -/
theorem C2_round_trip (sid f p : List Char) (reqs skills : List (List Char))
    (today : List Char)
    (hsid : sid ≠ []) (hsidd : ∀ c ∈ sid, isDigitChar c = true)
    (hf : benignB f = true)
    (hp : ∀ c ∈ p, benignChar c = true)
    (hbr : ∀ r ∈ reqs, ∀ c ∈ r, benignChar c = true)
    (hskills : ∀ sk ∈ skills, sk ∈ SKILLS.map (fun e => e.name))
    (htoday : ∀ c ∈ today, isDigitChar c = true ∨ c = '-') :
    ∃ d, CodeBuilder.parse
        (createSpecLines sid f p reqs skills (chars "Claude Code") today)
        = Except.ok d ∧
      d.spec_id = chars "SPEC-" ++ sid ∧ d.feature = f ∧ d.requirements = [] := by
  have hfb : ∀ c ∈ f, benignChar c = true := (benignB_parts hf).2.1
  have hfm := createSpec_frontmatter sid f p reqs skills today
  have hreq : CodeBuilder.extract_requirements
      (createSpecLines sid f p reqs skills (chars "Claude Code") today) = [] := by
    rw [CodeBuilder.extract_requirements]
    apply List.filterMap_eq_nil_iff.mpr
    intro l hl
    rw [createSpec_lines_scan sid f p reqs skills today hsid hsidd hfb hp hbr
      hskills htoday l hl]
    rfl
  rw [CodeBuilder.parse, hfm]
  refine ⟨_, rfl, ?_, ?_, ?_⟩
  · show (extractFieldFrom (chars "spec_id:") (fmInner sid f today skills)).getD [] = _
    rw [fmInner_spec_id sid f today skills hsid hsidd]
    rfl
  · show (extractFieldFrom (chars "feature:") (fmInner sid f today skills)).getD [] = _
    rw [fmInner_feature sid f today skills hsidd hf]
    rfl
  · exact hreq

/-- Closed instance of the amended C2 round-trip theorem. -/
theorem C2_round_trip_witness :
    ∃ d, CodeBuilder.parse
        (createSpecLines (chars "7") (chars "Login") [] [] []
          (chars "Claude Code") (chars "2025-01-15"))
        = Except.ok d ∧
      d.spec_id = chars "SPEC-" ++ chars "7" ∧ d.feature = chars "Login" ∧
        d.requirements = [] :=
  C2_round_trip (chars "7") (chars "Login") [] [] [] (chars "2025-01-15")
    (by decide) (by decide) (by decide) (by decide) (by decide) (by decide)
    (by decide)

end SpecBuilder

namespace DocSyncer

/-! ## Embedding of `DocSyncer._update_traceability_matrix` for claim C4

The Python matrix pattern is

  `## 7\. Traceability Matrix\n\n\| Requirement \| Code File \| Test File \| Status \|\n\|-------------|-----------|-----------|--------|\n(.*?)\n\n`

whose separator row leaves its four interior `|` unescaped, so the regex
engine reads the whole pattern as a five-way alternation: the literal
head up to and including `|-------------` (13 dashes), then eleven
dashes, then eleven dashes, then eight dashes, then `\n(.*?)\n\n`
(DOTALL, lazy).  `re.search` finds the leftmost position where some
alternative matches, trying them in this order, and `re.sub` replaces
every non-overlapping such match left to right. -/

/-- The first alternative: the literal text before the first unescaped
`|` of the pattern. -/
def matrixLiteral : List Char :=
  chars "## 7. Traceability Matrix\n\n| Requirement | Code File | Test File | Status |\n|-------------"

/-- Index of the first occurrence of `\n\n`. -/
def findDblNl : List Char → Option Nat
  | '\n' :: '\n' :: _ => some 0
  | _ :: t => (findDblNl t).map (fun k => k + 1)
  | [] => none

/-- Length of the match of the five-way alternation at the head of `l`,
alternatives tried in pattern order; the lazy `(.*?)` of the last
alternative takes the shortest body followed by a blank line. -/
def matchAltAt (l : List Char) : Option Nat :=
  if matrixLiteral.isPrefixOf l then some matrixLiteral.length
  else if (chars "-----------").isPrefixOf l then some 11
  else if (chars "-----------").isPrefixOf l then some 11
  else if (chars "--------").isPrefixOf l then some 8
  else
    match l with
    | '\n' :: t => (findDblNl t).map (fun k => k + 3)
    | _ => none

/-- `re.search(matrix_pattern, content, re.DOTALL) is not None`: some
suffix of the content matches an alternative at its head. -/
def searchMatrix : List Char → Bool
  | [] => false
  | c :: t => (matchAltAt (c :: t)).isSome || searchMatrix t

/-- `re.sub`: replace every leftmost non-overlapping match.  Every
alternative consumes at least one character, so fuel equal to the length
of the text is enough; a run out of fuel (never reached from
`subMatrix`) leaves the rest unchanged. -/
def subMatrixAux (repl : List Char) : Nat → List Char → List Char
  | _, [] => []
  | 0, l => l
  | fuel + 1, c :: t =>
    match matchAltAt (c :: t) with
    | some len => repl ++ subMatrixAux repl fuel ((c :: t).drop len)
    | none => c :: subMatrixAux repl fuel t

def subMatrix (repl content : List Char) : List Char :=
  subMatrixAux repl content.length content

/-- One rebuilt matrix row: `| id | code_file | test_file | status |`,
the code file being the first known reference's path for an implemented
requirement and an em-dash placeholder otherwise; the test-file column
is always the placeholder. -/
def matrixRow (report : SyncReport)
    (references : List (List Char × List CodeReference)) (req_id : List Char) :
    List Char :=
  let cf_st :=
    if req_id ∈ report.implemented_requirements then
      match getRefs references req_id with
      | [] => (chars "—", chars "⏳ Pending")
      | r :: _ => (r.file_path, chars "🟢 Implemented")
    else (chars "—", chars "⏳ Pending")
  chars "| " ++ req_id ++ chars " | " ++ cf_st.1 ++ chars " | — | " ++ cf_st.2 ++
    chars " |"

/-- `DocSyncer._update_traceability_matrix` on the raw character stream
of the SPEC file: `none` models the skip-with-warning branch (the file is
left unchanged); `some` carries the rewritten file contents. -/
def update_traceability_matrix (report : SyncReport) (files : List SrcFile)
    (content : List Char) : Option (List Char) :=
  if searchMatrix content then
    let references := find_spec_references files
    let all_reqs := Finset.sort (· ≤ ·)
      (report.implemented_requirements ∪ report.missing_requirements)
    let new_matrix := List.intercalate (chars "\n")
      (all_reqs.map (matrixRow report references))
    some (subMatrix
      (chars "## 7. Traceability Matrix\n\n| Requirement | Code File | Test File | Status |\n|-------------|-----------|-----------|--------|\n"
        ++ new_matrix ++ chars "\n\n")
      content)
  else none

/-- C4: the matrix patch fires on a document with no traceability-matrix
block at all.  The document `# Title\n\nBody paragraph\n\n` does not
contain the matrix anchor, yet the buggy alternation matches its blank
lines, the skip branch is not taken, and the file contents change. -/
theorem C4_matrix_patch_bug :
    containsSub matrixLiteral (chars "# Title\n\nBody paragraph\n\n") = false ∧
    ∃ out, update_traceability_matrix ⟨chars "S", chars "F", 0, ∅, ∅, [], [], []⟩ []
        (chars "# Title\n\nBody paragraph\n\n") = some out ∧
      out ≠ chars "# Title\n\nBody paragraph\n\n" := by
  have hu : update_traceability_matrix ⟨chars "S", chars "F", 0, ∅, ∅, [], [], []⟩ []
      (chars "# Title\n\nBody paragraph\n\n")
      = some (subMatrix
          (chars "## 7. Traceability Matrix\n\n| Requirement | Code File | Test File | Status |\n|-------------|-----------|-----------|--------|\n"
            ++ chars "\n\n")
          (chars "# Title\n\nBody paragraph\n\n")) := by
    rw [update_traceability_matrix, if_pos (by decide)]
    simp only [Finset.empty_union, Finset.sort_empty, List.map_nil]
    rfl
  exact ⟨by decide, _, hu, by decide⟩

end DocSyncer
